import Mathlib

/-!
Verification of the OCL interpreter core (bytecode VM, code generator,
standard library) against its natural-language specification.

The development is a shallow embedding of the C sources:
  * `src/common.c`, `include/common.h` — the tagged `Value` union with the
    string-ownership flag;
  * `src/vm/bytecode.c` — the bytecode chunk (instructions, constant pool,
    function table);
  * `src/vm/vm.c` — the stack virtual machine (`vm_execute`);
  * `src/interpreter/codegen.c` — the code generator;
  * `src/stdlib/stdlib.c` — the built-in library.

Machine integers: the C `int64_t` arithmetic wraps; we model it on `Int`
with an explicit reduction `wrap64` into `[-2^63, 2^63)`.  C `double`s are
modelled as exact rationals (`ℚ`): every operation the claims touch on
floats is a sign/zero test or exact transfer, except the square root,
which is modelled over `ℝ` (`Real.sqrt`) as the idealisation of the C
library `sqrt`.
-/

namespace OCL

/-- Two's-complement reduction of an unbounded integer into the `int64_t`
range `[-2^63, 2^63)`, the overflow behaviour of the C arithmetic. -/
def wrap64 (i : Int) : Int :=
  (i + 2 ^ 63) % 2 ^ 64 - 2 ^ 63

/-- C source `SourceLocation` from `common.h`: line, column, filename. -/
structure SourceLocation where
  line : Int
  column : Int
  filename : String
deriving DecidableEq, Repr

/-- The `Value` tagged union from `common.h`.  The `owned` flag of the
`VALUE_STRING` variant mirrors the C string-ownership discipline: an owned
string frees its buffer on destruction, a borrowed one does not.  C doubles
are modelled as exact rationals. -/
inductive Value where
  | vInt (i : Int)
  | vFloat (f : ℚ)
  | vStr (s : String) (owned : Bool)
  | vBool (b : Bool)
  | vChar (c : Char)
  | vNull
deriving DecidableEq, Repr

namespace Value

/-- C source `value_int` from `common.c`. -/
def value_int (i : Int) : Value := .vInt (wrap64 i)

/-- C source `value_float` from `common.c`. -/
def value_float (f : ℚ) : Value := .vFloat f

/-- C source `value_bool` from `common.c`. -/
def value_bool (b : Bool) : Value := .vBool b

/-- C source `value_null` from `common.c`. -/
def value_null : Value := .vNull

/-- C source `value_string` from `common.h`: takes ownership of the buffer. -/
def value_string (s : String) : Value := .vStr s true

/-- C source `value_string_copy` from `common.c`: allocates a fresh owned copy. -/
def value_string_copy (s : String) : Value := .vStr s true

/-- C source `value_string_borrow` from `common.h`: borrows the buffer. -/
def value_string_borrow (s : String) : Value := .vStr s false

/-- C source `value_own_copy` from `common.h`: returns its input unchanged unless it
is a borrowed string, in which case the result is an owned copy. -/
def value_own_copy : Value → Value
  | .vStr s _ => .vStr s true
  | v => v

/-- C source `value_is_truthy` from `common.c`. -/
def value_is_truthy : Value → Bool
  | .vBool b => b
  | .vInt i => i != 0
  | .vFloat f => f != 0
  | .vStr s _ => s != ""
  | .vChar c => c != Char.ofNat 0
  | .vNull => false

/-- Display form of a C double.  The C `value_to_string` prints `%g`; the
shortest-round-trip decimal rendering is abstracted here by the canonical
rational rendering (no claim depends on the float branch). -/
def floatDisplay (f : ℚ) : String := toString f

/-- C source `value_to_string` from `common.c` (the `%g`-printing revision the spec
cites): integers in base 10, booleans `true`/`false`, strings pass
through, null prints `null`, chars as one-character strings. -/
def value_to_string : Value → String
  | .vInt i => toString i
  | .vFloat f => floatDisplay f
  | .vStr s _ => s
  | .vBool b => if b then "true" else "false"
  | .vChar c => String.mk [c]
  | .vNull => "null"

/-- The C reads `b.data.int_val` straight out of the union when testing a
non-float divisor for zero.  For the variants that store an integer in the
union this is exact (`value_null` stores `int_val = 0`); for the others the
union bytes are modelled as the stored scalar. -/
def int_val_view : Value → Int
  | .vInt i => i
  | .vBool b => if b then 1 else 0
  | .vChar c => c.toNat
  | .vNull => 0
  | .vStr _ _ => 0
  | .vFloat _ => 0

/-- The numeric-promotion read used by the `ARITH_OP`/`CMP_OP` macros in
`vm.c`: `float_val` when the tag is `VALUE_FLOAT`, else the `int_val`
union view cast to double. -/
def as_double (v : Value) : ℚ :=
  match v with
  | .vFloat f => f
  | v => (int_val_view v : ℚ)

end Value

/-! ## The C `isspace` and `strTrim` (stdlib.c) -/

/-- C source `isspace` of the C locale: space, tab, newline, vertical tab, form
feed, carriage return. -/
def c_isspace (c : Char) : Bool :=
  c = ' ' || c = '\t' || c = '\n' || c = Char.ofNat 11 || c = Char.ofNat 12 || c = '\r'

/-- The pointer walk `while (isspace(*p)) p++` in `builtin_strtrim`. -/
def trimLeft (l : List Char) : List Char := l.dropWhile c_isspace

/-- The length walk `while (len > 0 && isspace(p[len-1])) len--` followed by
copying the first `len` bytes: removal of the maximal whitespace suffix. -/
def trimRight (l : List Char) : List Char :=
  (l.reverse.dropWhile c_isspace).reverse

/-- The character-level core of `builtin_strtrim` in `stdlib.c`: skip
leading whitespace, then drop trailing whitespace. -/
def strtrim_chars (l : List Char) : List Char := trimRight (trimLeft l)

/-- C source `builtin_strtrim` as a function from the popped argument vector to the
single pushed result (`stdlib.c`): a non-string or missing argument yields
an owned empty string, otherwise the trimmed owned copy. -/
def builtin_strtrim_val (args : List Value) : Value :=
  match args with
  | .vStr s _ :: _ => Value.value_string ⟨strtrim_chars s.data⟩
  | _ => Value.value_string ""

/-! ## `toString` / `toBool` built-ins (stdlib.c) -/

/-- C source `builtin_to_string` from `stdlib.c`: the display form of the first
argument as a fresh owned string; no argument yields the empty string. -/
def builtin_to_string_val (args : List Value) : Value :=
  match args with
  | [] => Value.value_string ""
  | a :: _ => Value.value_string (Value.value_to_string a)

/-- C source `builtin_to_bool` from `stdlib.c`: booleans pass through, numerics
test non-zero, strings test non-emptiness, everything else is false. -/
def builtin_to_bool_val (args : List Value) : Value :=
  match args with
  | .vBool b :: _ => Value.value_bool b
  | .vInt i :: _ => Value.value_bool (i != 0)
  | .vFloat f :: _ => Value.value_bool (f != 0)
  | .vStr s _ :: _ => Value.value_bool (s != "")
  | _ :: _ => Value.value_bool false
  | [] => Value.value_bool false

/-! ## Bytecode chunk (bytecode.c) -/

/-- The opcode enumeration used by `vm.c` and `codegen.c`. -/
inductive Opcode where
  | op_push_const | op_pop
  | op_load_var | op_store_var | op_load_global | op_store_global
  | op_add | op_subtract | op_multiply | op_divide | op_modulo
  | op_negate | op_not
  | op_equal | op_not_equal | op_less | op_less_equal | op_greater | op_greater_equal
  | op_and | op_or
  | op_jump | op_jump_if_false | op_jump_if_true
  | op_call | op_return | op_halt
  | op_call_builtin
  | op_to_int | op_to_float | op_to_string | op_concat
  | op_array_new | op_array_get | op_array_set | op_array_len
deriving DecidableEq, Repr

/-- An `Instruction`: opcode, two 32-bit operands, source location. -/
structure Instruction where
  opcode : Opcode
  operand1 : Nat
  operand2 : Nat
  location : SourceLocation
deriving DecidableEq, Repr

/-- The sentinel `start_ip` value `0xFFFFFFFF` used during two-pass
function registration. -/
def SENTINEL_IP : Nat := 4294967295

/-- A function-table entry: `{name, start_ip, param_count, local_count}`. -/
structure FuncEntry where
  name : String
  start_ip : Nat
  param_count : Nat
  local_count : Nat
deriving DecidableEq, Repr

/-- The bytecode chunk: instruction array, constant pool, function table.
The C `*_count` fields are the list lengths. -/
structure Bytecode where
  instructions : List Instruction
  constants : List Value
  functions : List FuncEntry
deriving DecidableEq, Repr

namespace Bytecode

/-- C source `bytecode_create`. -/
def create : Bytecode := ⟨[], [], []⟩

/-- C source `bytecode_emit`: append an instruction. -/
def emit (bc : Bytecode) (op : Opcode) (op1 op2 : Nat) (loc : SourceLocation) :
    Bytecode :=
  { bc with instructions := bc.instructions ++ [⟨op, op1, op2, loc⟩] }

/-- C source `bytecode_patch`: overwrite `operand1` of instruction `index` when the
index is in range, else do nothing. -/
def patch (bc : Bytecode) (index : Nat) (new_operand1 : Nat) : Bytecode :=
  if h : index < bc.instructions.length then
    let ins := bc.instructions.get ⟨index, h⟩
    let ins' := { ins with operand1 := new_operand1 }
    { bc with instructions := bc.instructions.set index ins' }
  else bc

/-- C source `bytecode_add_constant`: append to the pool (strings are deep-copied
into the pool, which is invisible to the functional model) and return the
new constant's ordinal. -/
def add_constant (bc : Bytecode) (v : Value) : Nat × Bytecode :=
  (bc.constants.length, { bc with constants := bc.constants ++ [v] })

/-- The scan-and-update loop of `bytecode_add_function`: on a name match,
overwrite `start_ip` only when the caller's value is not the sentinel,
always overwrite `param_count`, and return the match's ordinal. -/
def add_function_scan (fns : List FuncEntry) (name : String) (start_ip : Nat)
    (param_count : Nat) (i : Nat) : Option (Nat × List FuncEntry) :=
  match fns with
  | [] => none
  | fe :: rest =>
    if fe.name = name then
      let fe' := { fe with
        start_ip := if start_ip ≠ SENTINEL_IP then start_ip else fe.start_ip,
        param_count := param_count }
      some (i, fe' :: rest)
    else
      match add_function_scan rest name start_ip param_count (i + 1) with
      | some (j, rest') => some (j, fe :: rest')
      | none => none

/-- C source `bytecode_add_function`: register a new entry (with `local_count = 0`)
or update the existing entry of the same name; returns the ordinal. -/
def add_function (bc : Bytecode) (name : String) (start_ip : Nat)
    (param_count : Nat) : Nat × Bytecode :=
  match add_function_scan bc.functions name start_ip param_count 0 with
  | some (i, fns') => (i, { bc with functions := fns' })
  | none =>
    (bc.functions.length,
     { bc with functions :=
         bc.functions ++ [⟨name, start_ip, param_count, 0⟩] })

/-- C source `bytecode_find_function`: linear name lookup, `none` when absent. -/
def find_function (bc : Bytecode) (name : String) : Option Nat :=
  (bc.functions.map FuncEntry.name).indexOf? name

end Bytecode

/-! ## The virtual machine (vm.c)

The C VM has a fixed-size value stack (`VM_STACK_MAX`) and call-frame
stack (`VM_FRAMES_MAX`); the numeric values of those compile-time
constants live in a header revision outside the snapshot, so the state
carries them as fields (`stackMax`, `framesMax`) checked exactly where
the C checks them.  The value stack is a list with the head as top of
stack; `stack_base` counts from the bottom, as in the C.  `errs` is the
sequence of runtime diagnostics printed to stderr, in order. -/

/-- 32-bit two's-complement reduction: the C `(int)` cast applied to
`int64_t`/`double` results when setting the exit code. -/
def wrap32 (i : Int) : Int :=
  (i + 2 ^ 31) % 2 ^ 32 - 2 ^ 31

/-- The C `(long)`/`(int)` cast of a `double`: truncation toward zero. -/
def rat_trunc (q : ℚ) : Int :=
  if q < 0 then ⌈q⌉ else ⌊q⌋

/-- Runtime diagnostics printed by `vm.c` to stderr.  Division by zero
carries the offending instruction's source line and column (the C prints
`Division by zero [line:column]`). -/
inductive RtErr where
  | stackOverflow
  | stackUnderflow
  | divisionByZero (line column : Int)
  | invalidFunctionIndex (idx : Nat)
  | callStackOverflow
  | arraysNotImplemented
deriving DecidableEq, Repr

/-- A call frame: caller return address, value-stack depth recorded at
frame creation (before the arguments are popped), and the locals array
(`local_count` is its length). -/
structure CallFrame where
  return_ip : Nat
  stack_base : Nat
  locals : List Value
deriving DecidableEq, Repr

/-- The VM state (`struct VM` plus the observable stdout/stderr traces). -/
structure VMState where
  bytecode : Bytecode
  stack : List Value
  frames : List CallFrame
  globals : List Value
  pc : Nat
  halted : Bool
  exit_code : Int
  stackMax : Nat
  framesMax : Nat
  errs : List RtErr
  output : String
deriving DecidableEq, Repr

namespace VMState

open Value

/-- C source `vm_create`: empty stack, frames and globals, `pc = 0`, running,
exit code 0. -/
def vm_create (bc : Bytecode) (stackMax framesMax : Nat) : VMState :=
  ⟨bc, [], [], [], 0, false, 0, stackMax, framesMax, [], ""⟩

/-- C source `vm_push`: on a full stack report stack overflow, halt with exit
code 1 and drop the value; otherwise push. -/
def vm_push (vm : VMState) (v : Value) : VMState :=
  if vm.stackMax ≤ vm.stack.length then
    { vm with halted := true, exit_code := 1, errs := vm.errs ++ [.stackOverflow] }
  else
    { vm with stack := v :: vm.stack }

/-- C source `vm_pop`: on an empty stack report stack underflow, halt with exit
code 1 and produce Null; otherwise pop the top. -/
def vm_pop (vm : VMState) : Value × VMState :=
  match vm.stack with
  | [] => (.vNull,
      { vm with halted := true, exit_code := 1, errs := vm.errs ++ [.stackUnderflow] })
  | v :: rest => (v, { vm with stack := rest })

/-- C source `pop_args_for_builtin` / `pop_args`: pop `argc` values; the result
list is in argument order (`args[0]` first), as the C fills the array
from the back. -/
def vm_pop_n : Nat → VMState → List Value × VMState
  | 0, vm => ([], vm)
  | n + 1, vm =>
    let (v, vm1) := vm_pop vm
    let (vs, vm2) := vm_pop_n n vm1
    (vs ++ [v], vm2)

/-- C source `ensure_global`: grow the globals vector with Null slots so that
index `idx` exists (`global_count` becomes `idx + 1` when it grows). -/
def ensure_global (vm : VMState) (idx : Nat) : VMState :=
  if idx < vm.globals.length then vm
  else { vm with globals :=
          vm.globals ++ List.replicate (idx + 1 - vm.globals.length) Value.vNull }

/-- C source `ensure_local`: same growth discipline on a frame's locals array. -/
def ensure_local (f : CallFrame) (idx : Nat) : CallFrame :=
  if idx < f.locals.length then f
  else { f with locals :=
          f.locals ++ List.replicate (idx + 1 - f.locals.length) Value.vNull }

/-- Advance the program counter: the `vm->pc++` at the bottom of the
execution loop (cases that `break` out of the opcode switch). -/
def advance (vm : VMState) : VMState := { vm with pc := vm.pc + 1 }

/-- The `CMP_OP` macro: compare as integers when both operands are
`VALUE_INT`, else compare the `double` promotions. -/
def cmp_values (intCmp : Int → Int → Bool) (ratCmp : ℚ → ℚ → Bool)
    (a b : Value) : Bool :=
  match a, b with
  | .vInt ai, .vInt bi => intCmp ai bi
  | _, _ => ratCmp (as_double a) (as_double b)

/-- C source `OP_EQUAL`: equal types compared by variant (strings by contents,
two nulls equal); differing types are unequal. -/
def values_equal (a b : Value) : Bool :=
  match a, b with
  | .vInt ai, .vInt bi => ai == bi
  | .vFloat af, .vFloat bf => af == bf
  | .vBool ab, .vBool bb => ab == bb
  | .vChar ac, .vChar bc2 => ac == bc2
  | .vStr as2 _, .vStr bs2 _ => as2 == bs2
  | .vNull, .vNull => true
  | _, _ => false

/-- C source `builtin_print` (inlined in `vm.c`): pop the arguments, write their
display forms separated by single spaces plus a newline, push Null. -/
def builtin_print (vm : VMState) (argc : Nat) : VMState :=
  let (args, vm1) := vm_pop_n argc vm
  let line := String.intercalate " " (args.map value_to_string) ++ "\n"
  vm_push { vm1 with output := vm1.output ++ line } Value.vNull

/-- The format walk of `builtin_printf`: backslash escapes are decoded at
runtime; `%d`/`%i`, `%f`, `%s`, `%c`, `%b` consume one argument when one
remains (and print nothing otherwise); `%%` prints a percent; an unknown
specifier prints itself with the percent. -/
def printf_render : List Char → List Value → String
  | '\\' :: c :: rest, args =>
    (match c with
     | 'n' => "\n"
     | 't' => "\t"
     | 'r' => "\r"
     | '\\' => "\\"
     | c => String.mk [c]) ++ printf_render rest args
  | '%' :: c :: rest, args =>
    (match c, args with
     | 'd', a :: rest2 | 'i', a :: rest2 =>
       ((match a with
         | .vInt n => toString n
         | .vFloat f => toString (rat_trunc f)
         | a => value_to_string a) ++ printf_render rest rest2 : String)
     | 'f', a :: rest2 =>
       (match a with
        | .vFloat f => floatDisplay f
        | .vInt n => floatDisplay (n : ℚ)
        | a => value_to_string a) ++ printf_render rest rest2
     | 's', a :: rest2 => value_to_string a ++ printf_render rest rest2
     | 'c', a :: rest2 =>
       (match a with
        | .vChar ch => String.mk [ch]
        | a => value_to_string a) ++ printf_render rest rest2
     | 'b', a :: rest2 =>
       (if value_is_truthy a then "true" else "false") ++ printf_render rest rest2
     | '%', as2 => "%" ++ printf_render rest as2
     | 'd', [] | 'i', [] | 'f', [] | 's', [] | 'c', [] | 'b', [] => printf_render rest []
     | c, as2 => "%" ++ String.mk [c] ++ printf_render rest as2)
  | c :: rest, args => String.mk [c] ++ printf_render rest args
  | [], _ => ""

/-- C source `builtin_printf` (inlined in `vm.c`): with no arguments just push
Null; with a non-string first argument print its display form; otherwise
run the format walk over the remaining arguments.  Pushes Null. -/
def builtin_printf (vm : VMState) (argc : Nat) : VMState :=
  if argc < 1 then vm_push vm Value.vNull
  else
    let (args, vm1) := vm_pop_n argc vm
    match args with
    | .vStr fmt _ :: rest =>
      vm_push { vm1 with output := vm1.output ++ printf_render fmt.data rest } Value.vNull
    | a :: _ =>
      vm_push { vm1 with output := vm1.output ++ value_to_string a } Value.vNull
    | [] => vm_push vm1 Value.vNull

end VMState

/-- Decimal digit accumulation of `strtoll`. -/
def strtoll_digits (l : List Char) : Int :=
  ((l.takeWhile Char.isDigit).foldl (fun acc c => acc * 10 + (c.toNat - '0'.toNat)) 0 : Nat)

/-- C source `strtoll(s, NULL, 10)`: skip leading whitespace, optional sign,
longest decimal-digit run; saturates at the `int64_t` bounds. -/
def c_strtoll (l : List Char) : Int :=
  let l1 := l.dropWhile c_isspace
  let raw : Int :=
    match l1 with
    | '-' :: rest => -(strtoll_digits rest)
    | '+' :: rest => strtoll_digits rest
    | rest => strtoll_digits rest
  max (-(2 ^ 63)) (min raw (2 ^ 63 - 1))

open Value VMState in
/-- One iteration of the `vm_execute` dispatch loop.  `bdispatch` is the
effect of the `default:` branch of the `OP_CALL_BUILTIN` case — the
`stdlib_dispatch` table together with its unknown-id fallback.  `vm.c`
implements only `print` and `printf` inline; the claims never execute the
table, so the development stays parametric in it.  When the VM is halted
or the program counter is past the last instruction the loop would not
run, so the state is returned unchanged. -/
def step (bdispatch : Nat → Nat → VMState → VMState) (vm : VMState) : VMState :=
  if vm.halted then vm
  else
    match vm.bytecode.instructions.get? vm.pc with
    | none => vm
    | some ins =>
      match ins.opcode with
      | .op_push_const =>
        (if h : ins.operand1 < vm.bytecode.constants.length then
          match vm.bytecode.constants.get ⟨ins.operand1, h⟩ with
          | .vStr s _ => advance (vm_push vm (value_string_borrow s))
          | c => advance (vm_push vm c)
        else advance (vm_push vm .vNull))
      | .op_pop =>
        advance (vm_pop vm).2
      | .op_load_var =>
        (match vm.frames with
         | f :: _ =>
           if h : ins.operand1 < f.locals.length then
             match f.locals.get ⟨ins.operand1, h⟩ with
             | .vStr s _ => advance (vm_push vm (value_string_borrow s))
             | v => advance (vm_push vm v)
           else advance (vm_push vm .vNull)
         | [] => advance (vm_push vm .vNull))
      | .op_store_var =>
        (match vm.frames with
         | f :: fs =>
           let (v, vm1) := vm_pop vm
           let f1 := ensure_local f ins.operand1
           let f2 := { f1 with locals := f1.locals.set ins.operand1 (value_own_copy v) }
           advance { vm1 with frames := f2 :: fs }
         | [] => advance (vm_pop vm).2)
      | .op_load_global =>
        let vm1 := ensure_global vm ins.operand1
        (match vm1.globals.getD ins.operand1 .vNull with
         | .vStr s _ => advance (vm_push vm1 (value_string_borrow s))
         | g => advance (vm_push vm1 g))
      | .op_store_global =>
        let (v, vm1) := vm_pop vm
        let vm2 := ensure_global vm1 ins.operand1
        advance { vm2 with globals := vm2.globals.set ins.operand1 (value_own_copy v) }
      | .op_add =>
        let (b, vm1) := vm_pop vm
        let (a, vm2) := vm_pop vm1
        (match a, b with
         | .vStr as2 _, .vStr bs2 _ =>
           advance (vm_push vm2 (value_string (as2 ++ bs2)))
         | .vInt ai, .vInt bi =>
           advance (vm_push vm2 (value_int (wrap64 (ai + bi))))
         | _, _ =>
           advance (vm_push vm2 (value_float (as_double a + as_double b))))
      | .op_subtract =>
        let (b, vm1) := vm_pop vm
        let (a, vm2) := vm_pop vm1
        (match a, b with
         | .vInt ai, .vInt bi =>
           advance (vm_push vm2 (value_int (wrap64 (ai - bi))))
         | _, _ =>
           advance (vm_push vm2 (value_float (as_double a - as_double b))))
      | .op_multiply =>
        let (b, vm1) := vm_pop vm
        let (a, vm2) := vm_pop vm1
        (match a, b with
         | .vInt ai, .vInt bi =>
           advance (vm_push vm2 (value_int (wrap64 (ai * bi))))
         | _, _ =>
           advance (vm_push vm2 (value_float (as_double a * as_double b))))
      | .op_divide =>
        let (b, vm1) := vm_pop vm
        let (a, vm2) := vm_pop vm1
        let bz : Bool :=
          match b with
          | .vFloat f => f == 0
          | _ => int_val_view b == 0
        (if bz then
          let vm3 := { vm2 with errs :=
            vm2.errs ++ [.divisionByZero ins.location.line ins.location.column] }
          advance (vm_push vm3 .vNull)
        else
          match a, b with
          | .vInt ai, .vInt bi =>
            advance (vm_push vm2 (value_int (wrap64 (Int.tdiv ai bi))))
          | _, _ =>
            advance (vm_push vm2 (value_float (as_double a / as_double b))))
      | .op_modulo =>
        let (b, vm1) := vm_pop vm
        let (a, vm2) := vm_pop vm1
        (match a, b with
         | .vInt ai, .vInt bi =>
           if bi ≠ 0 then advance (vm_push vm2 (value_int (wrap64 (Int.tmod ai bi))))
           else advance (vm_push vm2 .vNull)
         | _, _ => advance (vm_push vm2 .vNull))
      | .op_negate =>
        let (a, vm1) := vm_pop vm
        (match a with
         | .vInt ai => advance (vm_push vm1 (value_int (wrap64 (-ai))))
         | .vFloat f => advance (vm_push vm1 (value_float (-f)))
         | _ => advance (vm_push vm1 .vNull))
      | .op_not =>
        let (a, vm1) := vm_pop vm
        advance (vm_push vm1 (value_bool (!value_is_truthy a)))
      | .op_equal =>
        let (b, vm1) := vm_pop vm
        let (a, vm2) := vm_pop vm1
        advance (vm_push vm2 (value_bool (values_equal a b)))
      | .op_not_equal =>
        let (b, vm1) := vm_pop vm
        let (a, vm2) := vm_pop vm1
        advance (vm_push vm2 (value_bool (!values_equal a b)))
      | .op_less =>
        let (b, vm1) := vm_pop vm
        let (a, vm2) := vm_pop vm1
        advance (vm_push vm2 (value_bool (cmp_values (· < ·) (· < ·) a b)))
      | .op_less_equal =>
        let (b, vm1) := vm_pop vm
        let (a, vm2) := vm_pop vm1
        advance (vm_push vm2 (value_bool (cmp_values (· ≤ ·) (· ≤ ·) a b)))
      | .op_greater =>
        let (b, vm1) := vm_pop vm
        let (a, vm2) := vm_pop vm1
        advance (vm_push vm2 (value_bool (cmp_values (· > ·) (· > ·) a b)))
      | .op_greater_equal =>
        let (b, vm1) := vm_pop vm
        let (a, vm2) := vm_pop vm1
        advance (vm_push vm2 (value_bool (cmp_values (· ≥ ·) (· ≥ ·) a b)))
      | .op_and =>
        let (b, vm1) := vm_pop vm
        let (a, vm2) := vm_pop vm1
        advance (vm_push vm2 (value_bool (value_is_truthy a && value_is_truthy b)))
      | .op_or =>
        let (b, vm1) := vm_pop vm
        let (a, vm2) := vm_pop vm1
        advance (vm_push vm2 (value_bool (value_is_truthy a || value_is_truthy b)))
      | .op_jump =>
        { vm with pc := ins.operand1 }
      | .op_jump_if_false =>
        let (cond, vm1) := vm_pop vm
        if !value_is_truthy cond then { vm1 with pc := ins.operand1 }
        else advance vm1
      | .op_jump_if_true =>
        let (cond, vm1) := vm_pop vm
        if value_is_truthy cond then { vm1 with pc := ins.operand1 }
        else advance vm1
      | .op_call =>
        let fidx := ins.operand1
        let argc := ins.operand2
        (if h : fidx < vm.bytecode.functions.length then
          if vm.framesMax ≤ vm.frames.length then
            advance { vm with halted := true, exit_code := 1,
                              errs := vm.errs ++ [.callStackOverflow] }
          else
            let fe := vm.bytecode.functions.get ⟨fidx, h⟩
            let local_cap := (if argc < fe.local_count then fe.local_count else argc) + 8
            let k := min argc vm.stack.length
            let args_section :=
              List.replicate (argc - k) Value.vNull ++
                ((vm.stack.take argc).reverse.map value_own_copy)
            let locals := args_section ++ List.replicate (local_cap - argc) Value.vNull
            let frame : CallFrame := ⟨vm.pc + 1, vm.stack.length, locals⟩
            { vm with frames := frame :: vm.frames,
                      stack := vm.stack.drop argc,
                      pc := fe.start_ip }
        else
          advance { vm with halted := true, exit_code := 1,
                            errs := vm.errs ++ [.invalidFunctionIndex fidx] })
      | .op_return =>
        let (ret_raw, vm1) := vm_pop vm
        (match vm1.frames with
         | [] =>
           let ec := match ret_raw with
             | .vInt n => wrap32 n
             | _ => vm1.exit_code
           advance { vm1 with exit_code := ec, halted := true }
         | frame :: rest =>
           let ret_owned := value_own_copy ret_raw
           let vm2 := { vm1 with
             frames := rest,
             stack := vm1.stack.drop (vm1.stack.length - frame.stack_base) }
           let vm3 := vm_push vm2 ret_owned
           { vm3 with pc := frame.return_ip })
      | .op_halt =>
        let vm1 := { vm with halted := true }
        (match vm.stack.head? with
         | some (.vInt n) => advance { vm1 with exit_code := wrap32 n }
         | some (.vBool b) => advance { vm1 with exit_code := if b then 1 else 0 }
         | some (.vFloat f) => advance { vm1 with exit_code := wrap32 (rat_trunc f) }
         | _ => advance vm1)
      | .op_call_builtin =>
        (if ins.operand1 = 1 then advance (builtin_print vm ins.operand2)
        else if ins.operand1 = 2 then advance (builtin_printf vm ins.operand2)
        else advance (bdispatch ins.operand1 ins.operand2 vm))
      | .op_to_int =>
        let (a, vm1) := vm_pop vm
        let r : Int := match a with
          | .vInt n => n
          | .vFloat f => rat_trunc f
          | .vBool b => if b then 1 else 0
          | .vStr s _ => c_strtoll s.data
          | _ => 0
        advance (vm_push vm1 (value_int r))
      | .op_to_float =>
        let (a, vm1) := vm_pop vm
        let r : ℚ := match a with
          | .vFloat f => f
          | .vInt n => (n : ℚ)
          | .vBool b => if b then 1 else 0
          | _ => 0
        advance (vm_push vm1 (value_float r))
      | .op_to_string =>
        let (a, vm1) := vm_pop vm
        advance (vm_push vm1 (value_string_copy (value_to_string a)))
      | .op_concat =>
        let (b, vm1) := vm_pop vm
        let (a, vm2) := vm_pop vm1
        advance (vm_push vm2 (value_string (value_to_string a ++ value_to_string b)))
      | .op_array_new | .op_array_get | .op_array_set | .op_array_len =>
        advance (vm_push { vm with errs := vm.errs ++ [.arraysNotImplemented] } .vNull)

/-- C source `vm_execute`'s while loop, fuelled: stop when halted or the program
counter passes the last instruction. -/
def vm_run (bdispatch : Nat → Nat → VMState → VMState) :
    Nat → VMState → VMState
  | 0, vm => vm
  | fuel + 1, vm =>
    if vm.halted ∨ vm.bytecode.instructions.length ≤ vm.pc then vm
    else vm_run bdispatch fuel (step bdispatch vm)

/-! ## Syntax tree (ast.h, as produced by the parser)

The parser accepts function declarations only at program level
(`parse_program` dispatches on the `func` keyword; `parse_statement`
never produces one), so the embedding separates statements from
top-level forms.  Every node carries its source location, as in the C. -/

/-- Expression nodes.  A literal carries the already-decoded `Value`
payload from the tokenizer. -/
inductive Expr where
  | lit (v : Value) (loc : SourceLocation)
  | ident (name : String) (loc : SourceLocation)
  | binop (oper : String) (l r : Expr) (loc : SourceLocation)
  | unop (oper : String) (e : Expr) (loc : SourceLocation)
  | call (fname : String) (args : List Expr) (loc : SourceLocation)
  | indexAccess (arr index : Expr) (loc : SourceLocation)

/-- The `base.location` of an expression node. -/
def Expr.loc : Expr → SourceLocation
  | .lit _ l => l
  | .ident _ l => l
  | .binop _ _ _ l => l
  | .unop _ _ l => l
  | .call _ _ l => l
  | .indexAccess _ _ l => l

/-- Statement nodes (`emit_node`'s cases).  Block bodies are statement
lists, as in the C `BlockNode`. -/
inductive Stmt where
  | exprStmt (e : Expr)
  | importStmt (loc : SourceLocation)
  | varDecl (name : String) (initializer : Option Expr) (loc : SourceLocation)
  | blockStmt (stmts : List Stmt) (loc : SourceLocation)
  | ifStmt (cond : Expr) (thenB : List Stmt) (elseB : Option (List Stmt))
      (loc : SourceLocation)
  | whileLoop (cond : Expr) (body : List Stmt) (loc : SourceLocation)
  | forLoop (finit : Option Stmt) (cond : Option Expr) (inc : Option Expr)
      (body : List Stmt) (loc : SourceLocation)
  | retStmt (v : Option Expr) (loc : SourceLocation)
  | brkStmt (loc : SourceLocation)
  | contStmt (loc : SourceLocation)

/-- A top-level form: a function declaration or a statement. -/
inductive TopNode where
  | funcDecl (name : String) (params : List String) (body : List Stmt)
      (loc : SourceLocation)
  | stmt (s : Stmt)

/-! ## Code generator (codegen.c) -/

/-- A shadow-table entry `VarSlot` from `codegen.h`. -/
structure VarSlot where
  name : String
  slot : Nat
  scope_level : Nat
  is_global : Bool
deriving DecidableEq, Repr

/-- Diagnostics recorded by the code generator through `error_add`. -/
inductive CGErr where
  | undefinedVariable (name : String)
  | assignUndefined (name : String)
deriving DecidableEq, Repr

/-- The `CodeGenerator` state: bytecode under construction, the variable
shadow table, the scope level, the per-function local-slot counter stack
(head = innermost), the global table and the diagnostic collector. -/
structure CGState where
  bytecode : Bytecode
  vars : List VarSlot
  scope_level : Nat
  local_stack : List Nat
  in_global_scope : Bool
  globals : List VarSlot
  errs : List CGErr
deriving DecidableEq, Repr

/-- The static builtin registry assembled by `codegen_create`: `print`
and `printf` first, then the `stdlib.c` dispatch table in order. -/
def builtin_table : List (String × Nat) :=
  [("print", 1), ("printf", 2),
   ("input", 3), ("readLine", 4),
   ("abs", 10), ("sqrt", 11), ("pow", 12), ("sin", 13), ("cos", 14),
   ("tan", 15), ("floor", 16), ("ceil", 17), ("round", 18), ("max", 19),
   ("min", 20),
   ("strLen", 30), ("substr", 31), ("toUpperCase", 32), ("toLowerCase", 33),
   ("strContains", 34), ("strIndexOf", 35), ("strReplace", 36),
   ("strTrim", 37), ("strSplit", 38),
   ("toInt", 40), ("toFloat", 41), ("toString", 42), ("toBool", 43),
   ("typeOf", 44),
   ("exit", 50), ("assert", 51), ("isNull", 52), ("isInt", 53),
   ("isFloat", 54), ("isString", 55), ("isBool", 56)]

namespace CGState

/-- C source `lookup_builtin`: name lookup in the static registry (the C returns
`-1` for absence and the call site tests `bid > 0`). -/
def lookup_builtin (name : String) : Option Nat :=
  (builtin_table.find? (fun p => p.1 = name)).map Prod.snd

/-- C source `lookup_local`: scan the shadow table from the newest entry, skipping
globals. -/
def lookup_local (g : CGState) (name : String) : Option Nat :=
  (g.vars.reverse.find? (fun v => !v.is_global && v.name = name)).map VarSlot.slot

/-- C source `lookup_global`: scan the global table in insertion order. -/
def lookup_global (g : CGState) (name : String) : Option Nat :=
  (g.globals.find? (fun v => v.name = name)).map VarSlot.slot

/-- C source `add_local`: allocate the next slot of the innermost function's
counter and record the variable at the current scope level. -/
def add_local (g : CGState) (name : String) : Nat × CGState :=
  match g.local_stack with
  | c :: rest =>
    (c, { g with
      local_stack := (c + 1) :: rest,
      vars := g.vars ++ [⟨name, c, g.scope_level, false⟩] })
  | [] => (0, { g with local_stack := [1], vars := g.vars ++ [⟨name, 0, g.scope_level, false⟩] })

/-- C source `add_global`: the next global slot is the current table length. -/
def add_global (g : CGState) (name : String) : Nat × CGState :=
  (g.globals.length,
   { g with globals := g.globals ++ [⟨name, g.globals.length, 0, true⟩] })

/-- C source `enter_scope`. -/
def enter_scope (g : CGState) : CGState :=
  { g with scope_level := g.scope_level + 1 }

/-- C source `exit_scope`: drop shadow-table entries whose level reaches the
current level, then decrement it. -/
def exit_scope (g : CGState) : CGState :=
  { g with
    vars := g.vars.filter (fun v => v.scope_level < g.scope_level),
    scope_level := g.scope_level - 1 }

/-- Append one instruction to the bytecode under construction. -/
def cg_emit (g : CGState) (op : Opcode) (a b : Nat) (loc : SourceLocation) :
    CGState :=
  { g with bytecode := g.bytecode.emit op a b loc }

/-- Record a diagnostic (`error_add`). -/
def cg_err (g : CGState) (e : CGErr) : CGState :=
  { g with errs := g.errs ++ [e] }

/-- Backpatch instruction `idx`'s first operand in the bytecode under
construction (`bytecode_patch`). -/
def cg_patch (g : CGState) (idx tgt : Nat) : CGState :=
  { g with bytecode := g.bytecode.patch idx tgt }

/-- The binary-operator table of `emit_expr` (`AST_BIN_OP`); an operator
outside the table emits nothing. -/
def binop_opcode (oper : String) : Option Opcode :=
  (([("+", Opcode.op_add), ("-", Opcode.op_subtract), ("*", Opcode.op_multiply),
     ("/", Opcode.op_divide), ("%", Opcode.op_modulo),
     ("==", Opcode.op_equal), ("!=", Opcode.op_not_equal),
     ("<", Opcode.op_less), ("<=", Opcode.op_less_equal),
     (">", Opcode.op_greater), (">=", Opcode.op_greater_equal),
     ("&&", Opcode.op_and), ("||", Opcode.op_or)] :
      List (String × Opcode)).find? (fun p => p.1 = oper)).map Prod.snd

end CGState

open CGState in
mutual

/-- C source `emit_expr`: post-order expression emission.  Assignment stores
through the shadow tables; an identifier that resolves to neither table
records a diagnostic and pushes a Null constant; a call whose callee is
not a builtin and not in the function table is emitted with the sentinel
ordinal. -/
def emit_expr (g : CGState) : Expr → CGState
  | .lit v loc =>
    let (ci, bc1) := g.bytecode.add_constant v
    cg_emit { g with bytecode := bc1 } .op_push_const ci 0 loc
  | .ident name loc =>
    (match lookup_local g name with
     | some slot => cg_emit g .op_load_var slot 0 loc
     | none =>
       match lookup_global g name with
       | some slot => cg_emit g .op_load_global slot 0 loc
       | none =>
         let g1 := cg_err g (.undefinedVariable name)
         let (ci, bc1) := g1.bytecode.add_constant .vNull
         cg_emit { g1 with bytecode := bc1 } .op_push_const ci 0 loc)
  | .binop oper l r loc =>
    if oper = "=" then
      match l with
      | .ident name _ =>
        let g1 := emit_expr g r
        (match lookup_local g1 name with
         | some slot => cg_emit g1 .op_store_var slot 0 loc
         | none =>
           match lookup_global g1 name with
           | some slot => cg_emit g1 .op_store_global slot 0 loc
           | none => cg_err g1 (.assignUndefined name))
      | .indexAccess arr index _ =>
        let g1 := emit_expr g arr
        let g2 := emit_expr g1 index
        let g3 := emit_expr g2 r
        cg_emit g3 .op_array_set 0 0 loc
      | _ => g
    else
      let g1 := emit_expr g l
      let g2 := emit_expr g1 r
      (match binop_opcode oper with
       | some op => cg_emit g2 op 0 0 loc
       | none => g2)
  | .unop oper e loc =>
    let g1 := emit_expr g e
    if oper = "-" then cg_emit g1 .op_negate 0 0 loc
    else if oper = "!" then cg_emit g1 .op_not 0 0 loc
    else g1
  | .call fname args loc =>
    (match lookup_builtin fname with
     | some bid =>
       let g1 := emit_expr_list g args
       cg_emit g1 .op_call_builtin bid args.length loc
     | none =>
       let fidx := g.bytecode.find_function fname
       let g1 := emit_expr_list g args
       cg_emit g1 .op_call (fidx.getD SENTINEL_IP) args.length loc)
  | .indexAccess arr index loc =>
    let g1 := emit_expr g arr
    let g2 := emit_expr g1 index
    cg_emit g2 .op_array_get 0 0 loc

/-- Left-to-right emission of an argument list. -/
def emit_expr_list (g : CGState) : List Expr → CGState
  | [] => g
  | e :: es => emit_expr_list (emit_expr g e) es

end

open CGState in
mutual

/-- C source `emit_node` for statements.  Expression statements pop their value
unless they are assignments; `break`/`continue` and `Import` emit
nothing; loops backpatch their exit jump on completion. -/
def emit_stmt (g : CGState) : Stmt → CGState
  | .exprStmt e =>
    (match e with
     | .binop oper l r loc =>
       if oper = "=" then emit_expr g (.binop oper l r loc)
       else
         let g1 := emit_expr g (.binop oper l r loc)
         cg_emit g1 .op_pop 0 0 loc
     | .indexAccess _ _ _ => g
     | e =>
       let g1 := emit_expr g e
       cg_emit g1 .op_pop 0 0 e.loc)
  | .importStmt _ => g
  | .varDecl name initializer loc =>
    if g.in_global_scope then
      let (slot, g1) :=
        match lookup_global g name with
        | some s => (s, g)
        | none => add_global g name
      let g2 :=
        match initializer with
        | some e => emit_expr g1 e
        | none =>
          let (ci, bc1) := g1.bytecode.add_constant .vNull
          cg_emit { g1 with bytecode := bc1 } .op_push_const ci 0 loc
      cg_emit g2 .op_store_global slot 0 loc
    else
      let (slot, g1) := add_local g name
      let g2 :=
        match initializer with
        | some e => emit_expr g1 e
        | none =>
          let (ci, bc1) := g1.bytecode.add_constant .vNull
          cg_emit { g1 with bytecode := bc1 } .op_push_const ci 0 loc
      cg_emit g2 .op_store_var slot 0 loc
  | .blockStmt stmts _ =>
    exit_scope (emit_stmt_list (enter_scope g) stmts)
  | .ifStmt cond thenB elseB loc =>
    let g1 := emit_expr g cond
    let jf_idx := g1.bytecode.instructions.length
    let g2 := cg_emit g1 .op_jump_if_false 0 0 loc
    let g3 := exit_scope (emit_stmt_list (enter_scope g2) thenB)
    (match elseB with
     | some eb =>
       let je_idx := g3.bytecode.instructions.length
       let g4 := cg_emit g3 .op_jump 0 0 loc
       let g5 := cg_patch g4 jf_idx g4.bytecode.instructions.length
       let g6 := exit_scope (emit_stmt_list (enter_scope g5) eb)
       cg_patch g6 je_idx g6.bytecode.instructions.length
     | none =>
       cg_patch g3 jf_idx g3.bytecode.instructions.length)
  | .whileLoop cond body loc =>
    let loop_start := g.bytecode.instructions.length
    let g1 := emit_expr g cond
    let jf_idx := g1.bytecode.instructions.length
    let g2 := cg_emit g1 .op_jump_if_false 0 0 loc
    let g3 := exit_scope (emit_stmt_list (enter_scope g2) body)
    let g4 := cg_emit g3 .op_jump loop_start 0 loc
    cg_patch g4 jf_idx g4.bytecode.instructions.length
  | .forLoop finit cond inc body loc =>
    let g1 := enter_scope g
    let g2 := match finit with
      | some s => emit_stmt g1 s
      | none => g1
    let loop_start := g2.bytecode.instructions.length
    let (jf_idx, g3) := match cond with
      | some c =>
        let g' := emit_expr g2 c
        (some g'.bytecode.instructions.length, cg_emit g' .op_jump_if_false 0 0 loc)
      | none => (none, g2)
    let g4 := emit_stmt_list g3 body
    let g5 := match inc with
      | some ie =>
        (match ie with
         | .binop oper l r iloc =>
           if oper = "=" then emit_expr g4 (.binop oper l r iloc)
           else
             let g' := emit_expr g4 (.binop oper l r iloc)
             cg_emit g' .op_pop 0 0 loc
         | ie =>
           let g' := emit_expr g4 ie
           cg_emit g' .op_pop 0 0 loc)
      | none => g4
    let g6 := cg_emit g5 .op_jump loop_start 0 loc
    let g7 := match jf_idx with
      | some j => cg_patch g6 j g6.bytecode.instructions.length
      | none => g6
    exit_scope g7
  | .retStmt v loc =>
    let g1 := match v with
      | some e => emit_expr g e
      | none =>
        let (ci, bc1) := g.bytecode.add_constant .vNull
        cg_emit { g with bytecode := bc1 } .op_push_const ci 0 loc
    cg_emit g1 .op_return 0 0 loc
  | .brkStmt _ => g
  | .contStmt _ => g

/-- Emission of a statement list. -/
def emit_stmt_list (g : CGState) : List Stmt → CGState
  | [] => g
  | s :: rest => emit_stmt_list (emit_stmt g s) rest

end

/-- In-place update of the `i`-th list element (a direct C array store
such as `bc->functions[fidx].start_ip = ...`). -/
def list_update {α : Type} (l : List α) (i : Nat) (f : α → α) : List α :=
  match l, i with
  | [], _ => []
  | x :: xs, 0 => f x :: xs
  | x :: xs, n + 1 => x :: list_update xs n f

/-- Direct store `bc->functions[i].start_ip = ip`. -/
def Bytecode.set_start_ip (bc : Bytecode) (i ip : Nat) : Bytecode :=
  { bc with functions := list_update bc.functions i (fun fe => { fe with start_ip := ip }) }

/-- Direct store `bc->functions[i].local_count = n`. -/
def Bytecode.set_local_count (bc : Bytecode) (i n : Nat) : Bytecode :=
  { bc with functions := list_update bc.functions i (fun fe => { fe with local_count := n }) }

open CGState in
/-- C source `emit_node`'s `AST_FUNC_DECL` case: re-register the function (its
pass-2 entry gets `start_ip = 0` here, immediately overwritten by the
real start), guard the body behind a jump, bind the parameters to slots
`0 … param_count − 1` in a fresh scope with a fresh slot counter, emit
the body, append an implicit `push-null; return` when the body does not
end in a return, finalise `local_count`, restore the scopes and patch
the guarding jump past the emitted body. -/
def emit_func (g : CGState) (name : String) (params : List String)
    (body : List Stmt) (loc : SourceLocation) : CGState :=
  let (fidx, bc1) := g.bytecode.add_function name 0 params.length
  let jump_over := bc1.instructions.length
  let bc2 := bc1.emit .op_jump 0 0 loc
  let start_ip := bc2.instructions.length
  let bc3 := bc2.set_start_ip fidx start_ip
  let bc4 := bc3.patch jump_over start_ip
  let saved_global := g.in_global_scope
  let saved_scope := g.scope_level
  let g1 := { g with
    bytecode := bc4,
    in_global_scope := false,
    local_stack := params.length :: g.local_stack,
    scope_level := g.scope_level + 1 }
  let pvars := params.enum.map
    (fun p => (⟨p.2, p.1, g1.scope_level, false⟩ : VarSlot))
  let g2 := { g1 with vars := g1.vars ++ pvars }
  let g3 := emit_stmt_list g2 body
  let g4 :=
    if (g3.bytecode.instructions.getLast?.map Instruction.opcode) = some .op_return then
      g3
    else
      let (ci, bc5) := g3.bytecode.add_constant .vNull
      let g' := cg_emit { g3 with bytecode := bc5 } .op_push_const ci 0 loc
      cg_emit g' .op_return 0 0 loc
  let bc6 := g4.bytecode.set_local_count fidx (g4.local_stack.headD 0)
  let g5 := { g4 with bytecode := bc6, local_stack := g4.local_stack.tail }
  let g6 := { g5 with
    vars := g5.vars.filter (fun v => v.scope_level ≤ saved_scope),
    scope_level := saved_scope,
    in_global_scope := saved_global }
  { g6 with bytecode := g6.bytecode.patch jump_over g6.bytecode.instructions.length }

/-- C source `emit_node` on a top-level form. -/
def emit_top (g : CGState) : TopNode → CGState
  | .funcDecl name params body loc => emit_func g name params body loc
  | .stmt s => emit_stmt g s

/-- C source `codegen_create` followed by the state reset at the top of
`codegen_generate`: empty tables, scope level 0, one slot counter, global
scope. -/
def codegen_create : CGState :=
  ⟨Bytecode.create, [], 0, [0], true, [], []⟩

open CGState in
/-- Pass 1 of `codegen_generate`: allocate a global slot for each
top-level variable declaration not yet registered. -/
def alloc_globals_pass (g : CGState) (n : TopNode) : CGState :=
  match n with
  | .stmt (.varDecl name _ _) =>
    (match lookup_global g name with
     | some _ => g
     | none => (add_global g name).2)
  | _ => g

/-- Pass 2 of `codegen_generate`: register every function declaration
with the sentinel `start_ip`. -/
def register_funcs_pass (g : CGState) (n : TopNode) : CGState :=
  match n with
  | .funcDecl name params _ _ =>
    { g with bytecode := (g.bytecode.add_function name SENTINEL_IP params.length).2 }
  | _ => g

/-- Pass 3a of `codegen_generate`: emit function bodies. -/
def emit_funcs_pass (g : CGState) (n : TopNode) : CGState :=
  match n with
  | .funcDecl name params body loc => emit_func g name params body loc
  | _ => g

/-- Pass 3b of `codegen_generate`: emit the remaining top-level
statements. -/
def emit_stmts_pass (g : CGState) (n : TopNode) : CGState :=
  match n with
  | .funcDecl _ _ _ _ => g
  | .stmt s => emit_stmt g s

open CGState in
/-- C source `codegen_generate`: (1) allocate a global slot for each top-level
variable declaration; (2) register every function with the sentinel
`start_ip`; (3) emit function bodies, then the remaining top-level
statements; then call `main` if registered, and halt. -/
def codegen_generate (prog : List TopNode) : CGState :=
  let g1 := prog.foldl alloc_globals_pass codegen_create
  let g2 := prog.foldl register_funcs_pass g1
  let g3 := prog.foldl emit_funcs_pass g2
  let g4 := prog.foldl emit_stmts_pass g3
  let g5 :=
    match g4.bytecode.find_function "main" with
    | some midx => cg_emit g4 .op_call midx 0 ⟨1, 1, "entry"⟩
    | none => g4
  cg_emit g5 .op_halt 0 0 ⟨1, 1, "end"⟩

/-- The whole pipeline on an already-parsed tree: generate code, create
a VM with the given stack bounds, run it with the given fuel, and read
the exit code (what `main.c` returns to the OS). -/
def interpret (bdispatch : Nat → Nat → VMState → VMState)
    (prog : List TopNode) (stackMax framesMax fuel : Nat) : Int :=
  (vm_run bdispatch fuel
    (VMState.vm_create (codegen_generate prog).bytecode stackMax framesMax)).exit_code

/-! ## Concrete artifacts for counterexamples and witnesses -/

/-- A trivial builtin-table effect used wherever a closed statement needs
a concrete dispatch (none of the executions below reach the table). -/
def no_builtins : Nat → Nat → VMState → VMState := fun _ _ vm => vm

/-- A fixed source location for hand-built inputs. -/
def tloc : SourceLocation := ⟨1, 1, "t"⟩

/-- The tree of `Let x : Int = 7;`. -/
def prog_let7 : List TopNode := [.stmt (.varDecl "x" (some (.lit (.vInt 7) tloc)) tloc)]

/-- The tree of `Let x : Int = 7; return x;`. -/
def prog_let7_return : List TopNode :=
  prog_let7 ++ [.stmt (.retStmt (some (.ident "x" tloc)) tloc)]

/-- The tree of `func Int g(a : Int) { return 5; } g(41);`. -/
def prog_call_return : List TopNode :=
  [.funcDecl "g" ["a"] [.retStmt (some (.lit (.vInt 5) tloc)) tloc] tloc,
   .stmt (.exprStmt (.call "g" [.lit (.vInt 41) tloc] tloc))]

/-- The state of `prog_call_return`'s execution just before its
`return` instruction runs (four steps in: jump over the body, push the
argument, call, push the return value). -/
def state_before_return : VMState :=
  (step no_builtins)^[4]
    (VMState.vm_create (codegen_generate prog_call_return).bytecode 1024 256)

/-- A bare `break;` at top level. -/
def prog_break_toplevel : List TopNode := [.stmt (.brkStmt tloc)]

/-- C source `while (true) { break; }`. -/
def prog_while_break : List TopNode :=
  [.stmt (.whileLoop (.lit (.vBool true) tloc) [.brkStmt tloc] tloc)]

/-- C source `while (true) { }`. -/
def prog_while_empty : List TopNode :=
  [.stmt (.whileLoop (.lit (.vBool true) tloc) [] tloc)]

/-- Two function declarations with the same name. -/
def prog_dup_funcs : List TopNode :=
  [.funcDecl "f" [] [] tloc, .funcDecl "f" [] [] tloc]

/-- The number of function declarations in a source tree. -/
def func_decl_count (prog : List TopNode) : Nat :=
  prog.countP (fun n => match n with | .funcDecl _ _ _ _ => true | _ => false)

/-- The function-declaration names of a source tree, in order. -/
def func_names (prog : List TopNode) : List String :=
  prog.filterMap (fun n => match n with | .funcDecl name _ _ _ => some name | _ => none)

/-- A state about to execute `divide` with divisor `0` (top of stack)
over `6`, at source location 3:5. -/
def state_div_zero : VMState :=
  { VMState.vm_create ⟨[⟨.op_divide, 0, 0, ⟨3, 5, "t"⟩⟩], [], []⟩ 1024 256 with
    stack := [.vInt 0, .vInt 6] }

/-- A state about to execute `load-local` with no active frame and a
full value stack (its capacity is 2 and it holds 2 values). -/
def state_loadvar_full : VMState :=
  { VMState.vm_create ⟨[⟨.op_load_var, 0, 0, tloc⟩], [], []⟩ 2 256 with
    stack := [.vInt 1, .vInt 2] }

/-! ## The sqrt built-in (stdlib.c), over idealised reals

The library `sqrt` operates on IEEE doubles; its mathematical content is
modelled by `Real.sqrt`.  The guard `x < 0.0` is exact rational
arithmetic, as in the VM's value model. -/

/-- C source `to_double` from `stdlib.c`: numeric promotion of the argument. -/
def stdlib_to_double : Value → ℚ
  | .vInt n => (n : ℚ)
  | .vFloat f => f
  | .vBool b => if b then 1 else 0
  | _ => 0

/-- The value pushed by `builtin_sqrt`:
`value_float(x < 0.0 ? 0.0 : sqrt(x))` with `x` the promoted first
argument (`0.0` when there is none). -/
noncomputable def builtin_sqrt_res (args : List Value) : ℝ :=
  let x : ℚ := match args with
    | a :: _ => stdlib_to_double a
    | [] => 0
  if x < 0 then 0 else Real.sqrt (x : ℝ)

/-- The function-name list obtained by registering a sequence of names
one by one, skipping names already present (the observable effect of
folding `bytecode_add_function` over declarations). -/
def register_names (exl : List String) : List String → List String
  | [] => exl
  | n :: rest => register_names (if n ∈ exl then exl else exl ++ [n]) rest

end OCL

namespace OCL

/-! # Lemmas and claim theorems -/

/-- When the name is present, the `bytecode_add_function` scan finds it
and updates it in place: every entry keeps its name, and a sentinel
`start_ip` argument leaves every entry's `start_ip` untouched. -/
theorem add_function_scan_found (name : String) (ip pcount : Nat) :
    ∀ (fns : List FuncEntry) (i : Nat), name ∈ fns.map FuncEntry.name →
      ∃ j fns', Bytecode.add_function_scan fns name ip pcount i = some (j, fns') ∧
        fns'.map FuncEntry.name = fns.map FuncEntry.name ∧
        (ip = SENTINEL_IP →
          fns'.map (fun fe => (fe.name, fe.start_ip))
            = fns.map (fun fe => (fe.name, fe.start_ip)))
  | [], _, h => by simp at h
  | fe :: rest, i, h => by
    by_cases hn : fe.name = name
    · refine ⟨i,
        { fe with start_ip := if ip ≠ SENTINEL_IP then ip else fe.start_ip,
                  param_count := pcount } :: rest, ?_, ?_, ?_⟩
      · simp [Bytecode.add_function_scan, hn]
      · simp
      · intro hip
        simp [hip]
    · have hmem : name ∈ rest.map FuncEntry.name := by
        simp at h
        rcases h with h | h
        · exact absurd h.symm hn
        · simpa using h
      obtain ⟨j, rest', hscan, hnames, hstart⟩ :=
        add_function_scan_found name ip pcount rest (i + 1) hmem
      refine ⟨j, fe :: rest', ?_, ?_, ?_⟩
      · simp [Bytecode.add_function_scan, hn, hscan]
      · simp [hnames]
      · intro hip
        simp [hstart hip]

/-- C source `add_function_scan` fails exactly on absent names. -/
theorem add_function_scan_absent (name : String) (ip pcount : Nat) :
    ∀ (fns : List FuncEntry) (i : Nat), name ∉ fns.map FuncEntry.name →
      Bytecode.add_function_scan fns name ip pcount i = none
  | [], _, _ => rfl
  | fe :: rest, i, h => by
    have hn : ¬ (fe.name = name) := by
      intro he
      exact h (by simp [he])
    have hrest : name ∉ rest.map FuncEntry.name := by
      intro hm
      exact h (by simp [hm])
    simp [Bytecode.add_function_scan, hn,
      add_function_scan_absent name ip pcount rest (i + 1) hrest]

/-- C source `bytecode_add_function` on an absent name appends a fresh entry with
`local_count = 0` and returns its ordinal. -/
theorem add_function_fresh (bc : Bytecode) (name : String) (ip pcount : Nat)
    (h : name ∉ bc.functions.map FuncEntry.name) :
    bc.add_function name ip pcount
      = (bc.functions.length,
         { bc with functions := bc.functions ++ [⟨name, ip, pcount, 0⟩] }) := by
  simp [Bytecode.add_function, add_function_scan_absent name ip pcount bc.functions 0 h]

/-- C source `bytecode_patch` touches only the instruction array. -/
@[simp] theorem patch_functions (bc : Bytecode) (i t : Nat) :
    (bc.patch i t).functions = bc.functions := by
  rw [Bytecode.patch]; split <;> rfl

/-- C source `bytecode_emit` touches only the instruction array. -/
@[simp] theorem emit_functions (bc : Bytecode) (op : Opcode) (a b : Nat)
    (loc : SourceLocation) : (bc.emit op a b loc).functions = bc.functions := rfl

/-- C source `bytecode_add_constant` touches only the constant pool. -/
@[simp] theorem add_constant_functions (bc : Bytecode) (v : Value) :
    (bc.add_constant v).2.functions = bc.functions := rfl

/-- Emitting an instruction preserves the function table. -/
@[simp] theorem cg_emit_functions (g : CGState) (op : Opcode) (a b : Nat)
    (loc : SourceLocation) :
    (CGState.cg_emit g op a b loc).bytecode.functions = g.bytecode.functions := rfl

/-- Backpatching preserves the function table. -/
@[simp] theorem cg_patch_functions (g : CGState) (i t : Nat) :
    (CGState.cg_patch g i t).bytecode.functions = g.bytecode.functions := by
  simp [CGState.cg_patch]

/-- Recording a diagnostic does not change the bytecode. -/
@[simp] theorem cg_err_bytecode (g : CGState) (e : CGErr) :
    (CGState.cg_err g e).bytecode = g.bytecode := rfl

/-- Scope entry does not change the bytecode. -/
@[simp] theorem enter_scope_bytecode (g : CGState) :
    (CGState.enter_scope g).bytecode = g.bytecode := rfl

/-- Scope exit does not change the bytecode. -/
@[simp] theorem exit_scope_bytecode (g : CGState) :
    (CGState.exit_scope g).bytecode = g.bytecode := rfl

/-- Local-slot allocation does not change the bytecode. -/
@[simp] theorem add_local_bytecode (g : CGState) (name : String) :
    (CGState.add_local g name).2.bytecode = g.bytecode := by
  rw [CGState.add_local]
  rcases g.local_stack with _ | ⟨c, rest⟩ <;> rfl

/-- Global-slot allocation does not change the bytecode. -/
@[simp] theorem add_global_bytecode (g : CGState) (name : String) :
    (CGState.add_global g name).2.bytecode = g.bytecode := rfl

/-- Expression emission never touches the function table. -/
theorem emit_expr_functions : ∀ (g : CGState) (e : Expr),
    (emit_expr g e).bytecode.functions = g.bytecode.functions := by
  refine OCL.emit_expr.induct
    (fun g e => (emit_expr g e).bytecode.functions = g.bytecode.functions)
    (fun g es => (emit_expr_list g es).bytecode.functions = g.bytecode.functions)
    ?_ ?_ ?_ ?_ ?_ ?_ ?_ ?_ ?_ ?_ ?_ ?_ ?_ ?_ ?_ ?_ ?_ ?_ ?_ <;> intros <;>
      (try unfold_let at *) <;>
      first
        | (simp_all [emit_expr, emit_expr_list, Bytecode.add_constant,
            Prod.mk.injEq]
           done)
        | skip
  case refine_1 => rfl
  case refine_4 =>
    rename_i hl hg g1 ci bc1 x
    simp only [emit_expr.eq_def, hl, hg]
    rfl
  case refine_10 =>
    rename_i h g1 op x ih2 ih1
    conv_lhs => rw [emit_expr.eq_def]
    dsimp only
    rw [if_neg h, x]
    simp only [cg_emit_functions]
    rw [ih1, ih2]
  case refine_11 =>
    rename_i h g1 x ih2 ih1
    conv_lhs => rw [emit_expr.eq_def]
    dsimp only
    rw [if_neg h, x]
    rw [ih1, ih2]

/-- Argument-list emission never touches the function table. -/
theorem emit_expr_list_functions : ∀ (es : List Expr) (g : CGState),
    (emit_expr_list g es).bytecode.functions = g.bytecode.functions
  | [], _ => rfl
  | e :: es, g => by
    rw [emit_expr_list, emit_expr_list_functions es (emit_expr g e),
      emit_expr_functions g e]

mutual

/-- Statement emission never touches the function table (function
declarations are not statements; the only writer is `emit_func`). -/
theorem emit_stmt_functions : ∀ (g : CGState) (s : Stmt),
    (emit_stmt g s).bytecode.functions = g.bytecode.functions
  | g, .exprStmt e => by
    cases e with
    | binop oper l r loc =>
      by_cases ho : oper = "=" <;> simp [emit_stmt, ho, emit_expr_functions]
    | indexAccess a i loc => simp [emit_stmt]
    | lit v loc => simp [emit_stmt, emit_expr_functions]
    | ident n loc => simp [emit_stmt, emit_expr_functions]
    | unop o e loc => simp [emit_stmt, emit_expr_functions]
    | call f a loc => simp [emit_stmt, emit_expr_functions]
  | _, .importStmt _ => rfl
  | g, .varDecl name initzr loc => by
    rcases initzr with _ | e <;> rcases hlg : CGState.lookup_global g name with _ | s <;>
      by_cases hgs : g.in_global_scope <;>
        simp [emit_stmt, hlg, hgs, emit_expr_functions]
  | g, .blockStmt stmts loc => by
    simp [emit_stmt, emit_stmt_list_functions stmts]
  | g, .ifStmt cond thenB elseB loc => by
    rcases elseB with _ | eb
    · simp [emit_stmt, emit_expr_functions, emit_stmt_list_functions thenB]
    · simp [emit_stmt, emit_expr_functions, emit_stmt_list_functions thenB,
        emit_stmt_list_functions eb]
  | g, .whileLoop cond body loc => by
    simp [emit_stmt, emit_expr_functions, emit_stmt_list_functions body]
  | g, .forLoop finit cond inc body loc => by
    rcases finit with _ | s <;> rcases cond with _ | c <;> rcases inc with _ | ie
    · simp [emit_stmt, emit_stmt_list_functions body]
    · cases ie with
      | binop oper l r iloc =>
        by_cases ho : oper = "=" <;>
          simp [emit_stmt, ho, emit_expr_functions, emit_stmt_list_functions body]
      | _ => simp [emit_stmt, emit_expr_functions, emit_stmt_list_functions body]
    · simp [emit_stmt, emit_expr_functions, emit_stmt_list_functions body]
    · cases ie with
      | binop oper l r iloc =>
        by_cases ho : oper = "=" <;>
          simp [emit_stmt, ho, emit_expr_functions, emit_stmt_list_functions body]
      | _ => simp [emit_stmt, emit_expr_functions, emit_stmt_list_functions body]
    · simp [emit_stmt, emit_stmt_functions _ s, emit_stmt_list_functions body]
    · cases ie with
      | binop oper l r iloc =>
        by_cases ho : oper = "=" <;>
          simp [emit_stmt, ho, emit_expr_functions, emit_stmt_functions _ s,
            emit_stmt_list_functions body]
      | _ => simp [emit_stmt, emit_expr_functions, emit_stmt_functions _ s,
          emit_stmt_list_functions body]
    · simp [emit_stmt, emit_expr_functions, emit_stmt_functions _ s,
        emit_stmt_list_functions body]
    · cases ie with
      | binop oper l r iloc =>
        by_cases ho : oper = "=" <;>
          simp [emit_stmt, ho, emit_expr_functions, emit_stmt_functions _ s,
            emit_stmt_list_functions body]
      | _ => simp [emit_stmt, emit_expr_functions, emit_stmt_functions _ s,
          emit_stmt_list_functions body]
  | g, .retStmt v loc => by
    rcases v with _ | e <;> simp [emit_stmt, emit_expr_functions]
  | _, .brkStmt _ => rfl
  | _, .contStmt _ => rfl

/-- Statement-list emission never touches the function table. -/
theorem emit_stmt_list_functions : ∀ (ss : List Stmt) (g : CGState),
    (emit_stmt_list g ss).bytecode.functions = g.bytecode.functions
  | [], _ => rfl
  | s :: rest, g => by
    rw [emit_stmt_list, emit_stmt_list_functions rest (emit_stmt g s),
      emit_stmt_functions g s]

end

/-- An in-place element update preserves a projection the update fixes. -/
theorem list_update_map {α β : Type} (h : α → β) (f : α → α)
    (hf : ∀ x, h (f x) = h x) :
    ∀ (l : List α) (i : Nat), (list_update l i f).map h = l.map h
  | [], _ => rfl
  | x :: xs, 0 => by simp [list_update, hf]
  | x :: xs, n + 1 => by simp [list_update, list_update_map h f hf xs n]

/-- Overwriting an entry's `start_ip` preserves the name list. -/
@[simp] theorem set_start_ip_names (bc : Bytecode) (i ip : Nat) :
    (bc.set_start_ip i ip).functions.map FuncEntry.name
      = bc.functions.map FuncEntry.name := by
  simp only [Bytecode.set_start_ip]
  exact list_update_map FuncEntry.name (fun fe => { fe with start_ip := ip })
    (fun x => rfl) bc.functions i

/-- Overwriting an entry's `local_count` preserves the name list. -/
@[simp] theorem set_local_count_names (bc : Bytecode) (i n : Nat) :
    (bc.set_local_count i n).functions.map FuncEntry.name
      = bc.functions.map FuncEntry.name := by
  simp only [Bytecode.set_local_count]
  exact list_update_map FuncEntry.name (fun fe => { fe with local_count := n })
    (fun x => rfl) bc.functions i

/-- C source `bytecode_add_function` on a present name preserves the name list
(and, when called with the sentinel, every entry's `start_ip`). -/
theorem add_function_present (bc : Bytecode) (name : String) (ip pcount : Nat)
    (h : name ∈ bc.functions.map FuncEntry.name) :
    (bc.add_function name ip pcount).2.functions.map FuncEntry.name
      = bc.functions.map FuncEntry.name ∧
    (ip = SENTINEL_IP →
      (bc.add_function name ip pcount).2.functions.map
          (fun fe => (fe.name, fe.start_ip))
        = bc.functions.map (fun fe => (fe.name, fe.start_ip))) := by
  obtain ⟨j, fns', hscan, hnames, hstart⟩ :=
    add_function_scan_found name ip pcount bc.functions 0 h
  rw [Bytecode.add_function, hscan]
  exact ⟨hnames, hstart⟩

/-- Emitting a function body whose name is already registered preserves
the function-table name list. -/
theorem emit_func_names (g : CGState) (name : String) (params : List String)
    (body : List Stmt) (loc : SourceLocation)
    (h : name ∈ g.bytecode.functions.map FuncEntry.name) :
    (emit_func g name params body loc).bytecode.functions.map FuncEntry.name
      = g.bytecode.functions.map FuncEntry.name := by
  have hadd := (add_function_present g.bytecode name 0 params.length h).1
  unfold emit_func
  split
  rename_i ci bc1 heq
  rw [heq] at hadd
  simp only [] at hadd
  dsimp only
  split <;>
    simp [set_start_ip_names, set_local_count_names,
      emit_stmt_list_functions body, hadd, patch_functions]


/-- Dropping a prefix of `p`-satisfying elements twice is the same as
dropping it once. -/
theorem dropWhile_idem (p : Char → Bool) (l : List Char) :
    (l.dropWhile p).dropWhile p = l.dropWhile p := by
  induction l with
  | nil => rfl
  | cons hd tl ih =>
    by_cases h : p hd
    · simp [List.dropWhile, h, ih]
    · simp [List.dropWhile, h]

/-- C source `dropWhile` never leaves a satisfying element in front. -/
theorem dropWhile_head_false (p : Char → Bool) (l : List Char) :
    l.dropWhile p = [] ∨
      ∃ hd tl, l.dropWhile p = hd :: tl ∧ p hd = false := by
  induction l with
  | nil => exact Or.inl rfl
  | cons hd tl ih =>
    by_cases h : p hd
    · simpa [List.dropWhile, h] using ih
    · exact Or.inr ⟨hd, tl, by simp [List.dropWhile, h], by simp [h]⟩

/-- A list whose head falsifies `p` is untouched by `dropWhile`. -/
theorem dropWhile_of_head_false (p : Char → Bool) (hd : Char) (tl : List Char)
    (h : p hd = false) : (hd :: tl).dropWhile p = hd :: tl := by
  simp [List.dropWhile, h]

/-- C source `trimRight` yields a prefix of its input. -/
theorem trimRight_prefix_self (l : List Char) : trimRight l <+: l := by
  have hsuff : l.reverse.dropWhile c_isspace <:+ l.reverse :=
    List.dropWhile_suffix c_isspace
  have := List.reverse_prefix.mpr
    (by simpa using hsuff : (l.reverse.dropWhile c_isspace) <:+ (l.reverse.reverse).reverse)
  simpa [trimRight] using this

/-- C source `trimRight` keeps the left end free of whitespace. -/
theorem trimLeft_trimRight (l : List Char) (h : trimLeft l = l) :
    trimLeft (trimRight l) = trimRight l := by
  rcases hR : trimRight l with _ | ⟨hd, tl⟩
  · simp [trimLeft]
  · rcases (hR ▸ trimRight_prefix_self l) with ⟨rest, hrest⟩
    have hhead : l.head? = some hd := by
      rw [← hrest]; simp
    have hfalse : c_isspace hd = false := by
      rcases dropWhile_head_false c_isspace l with h0 | ⟨hd', tl', heq, hf⟩
      · rw [trimLeft, h0] at h
        rw [← h] at hhead
        simp at hhead
      · have hl : l = hd' :: tl' := by rw [← h, trimLeft, heq]
        rw [hl] at hhead
        simp at hhead
        rwa [← hhead]
    exact dropWhile_of_head_false _ _ _ hfalse

/-- C source `trimRight` is idempotent. -/
theorem trimRight_idem (l : List Char) : trimRight (trimRight l) = trimRight l := by
  simp [trimRight, dropWhile_idem]

/-- Left-trimming is idempotent. -/
theorem trimLeft_idem (l : List Char) : trimLeft (trimLeft l) = trimLeft l := by
  simp [trimLeft, dropWhile_idem]

/-- The trim core is idempotent. -/
theorem strtrim_chars_idem (l : List Char) :
    strtrim_chars (strtrim_chars l) = strtrim_chars l := by
  have h1 : trimLeft (trimRight (trimLeft l)) = trimRight (trimLeft l) :=
    trimLeft_trimRight (trimLeft l) (trimLeft_idem l)
  calc strtrim_chars (strtrim_chars l)
      = trimRight (trimLeft (trimRight (trimLeft l))) := rfl
    _ = trimRight (trimRight (trimLeft l)) := by rw [h1]
    _ = trimRight (trimLeft l) := trimRight_idem _
    _ = strtrim_chars l := rfl

/-- C8: the `strTrim` built-in is idempotent — feeding its result back in
returns the same string (for every input string value, whatever its
ownership flag). -/
theorem strtrim_idempotent (s : String) (o : Bool) :
    builtin_strtrim_val [builtin_strtrim_val [.vStr s o]] =
      builtin_strtrim_val [.vStr s o] := by
  simp [builtin_strtrim_val, Value.value_string, strtrim_chars_idem]

/-- Pass 1 (global-slot allocation) never touches the bytecode. -/
theorem alloc_pass_bytecode : ∀ (prog : List TopNode) (g : CGState),
    (prog.foldl alloc_globals_pass g).bytecode = g.bytecode
  | [], _ => rfl
  | n :: rest, g => by
    rw [List.foldl_cons, alloc_pass_bytecode rest _]
    cases n with
    | funcDecl a b c d => rfl
    | stmt s =>
      cases s with
      | varDecl name i l =>
        rcases h : CGState.lookup_global g name with _ | s2 <;>
          simp [alloc_globals_pass, h]
      | exprStmt e => rfl
      | importStmt l => rfl
      | blockStmt a l => rfl
      | ifStmt a b c l => rfl
      | whileLoop a b l => rfl
      | forLoop a b c d l => rfl
      | retStmt a l => rfl
      | brkStmt l => rfl
      | contStmt l => rfl

/-- Pass 2 registers exactly the declared function names, first
occurrences first, duplicates collapsed onto their existing entry. -/
theorem register_pass_names : ∀ (prog : List TopNode) (g : CGState),
    (prog.foldl register_funcs_pass g).bytecode.functions.map FuncEntry.name
      = register_names (g.bytecode.functions.map FuncEntry.name) (func_names prog)
  | [], _ => rfl
  | n :: rest, g => by
    cases n with
    | funcDecl name params body loc =>
      rw [List.foldl_cons, register_pass_names rest _]
      by_cases hm : name ∈ g.bytecode.functions.map FuncEntry.name
      · have hp := (add_function_present g.bytecode name SENTINEL_IP params.length hm).1
        simp [register_funcs_pass, func_names, register_names, hm, hp]
      · have hf := add_function_fresh g.bytecode name SENTINEL_IP params.length hm
        simp [register_funcs_pass, func_names, register_names, hm, hf]
    | stmt s =>
      rw [List.foldl_cons, register_pass_names rest _]
      simp [register_funcs_pass, func_names]

/-- Membership in the starting list survives registration. -/
theorem subset_register_names : ∀ (nms exl : List String) (x : String),
    x ∈ exl → x ∈ register_names exl nms
  | [], _, _, h => h
  | n :: rest, exl, x, h => by
    rw [register_names]
    apply subset_register_names rest
    by_cases hm : n ∈ exl <;> simp [hm, h]

/-- Every registered name is in the result. -/
theorem mem_register_names : ∀ (nms exl : List String) (x : String),
    x ∈ nms → x ∈ register_names exl nms
  | [], _, _, h => absurd h (List.not_mem_nil _)
  | n :: rest, exl, x, h => by
    rw [register_names]
    rcases List.mem_cons.mp h with rfl | hx
    · apply subset_register_names rest
      by_cases hm : x ∈ exl <;> simp [hm]
    · exact mem_register_names rest _ x hx

/-- Registration preserves freedom from duplicates. -/
theorem register_names_nodup : ∀ (nms exl : List String), exl.Nodup →
    (register_names exl nms).Nodup
  | [], _, h => h
  | n :: rest, exl, h => by
    rw [register_names]
    apply register_names_nodup rest
    by_cases hm : n ∈ exl
    · simpa [hm] using h
    · simp only [hm, if_false]
      simp [List.nodup_append, h, hm]

/-- The registered set is the union of the start set and the names. -/
theorem register_names_toFinset : ∀ (nms exl : List String),
    (register_names exl nms).toFinset = exl.toFinset ∪ nms.toFinset
  | [], exl => by simp [register_names]
  | n :: rest, exl => by
    rw [register_names, register_names_toFinset rest _]
    by_cases hm : n ∈ exl
    · simp only [hm, if_true]
      ext x
      simp
      exact fun h => h ▸ Or.inl hm
    · simp only [hm, if_false]
      ext x
      simp
      tauto

/-- A registration from the empty table has as many entries as the
distinct names among the input. -/
theorem register_names_length (nms : List String) :
    (register_names [] nms).length = nms.dedup.length := by
  have h1 : (register_names [] nms).Nodup :=
    register_names_nodup nms [] (by simp)
  have h2 : (register_names [] nms).toFinset = nms.toFinset := by
    rw [register_names_toFinset]; simp
  calc (register_names [] nms).length
      = (register_names [] nms).toFinset.card :=
        (List.toFinset_card_of_nodup h1).symm
    _ = nms.toFinset.card := by rw [h2]
    _ = nms.dedup.length := List.card_toFinset nms

/-- Pass 3a (body emission) preserves the function-name list as long as
every declared name is already registered. -/
theorem emit_funcs_pass_names : ∀ (prog : List TopNode) (g : CGState),
    (∀ n ∈ func_names prog, n ∈ g.bytecode.functions.map FuncEntry.name) →
    (prog.foldl emit_funcs_pass g).bytecode.functions.map FuncEntry.name
      = g.bytecode.functions.map FuncEntry.name
  | [], _, _ => rfl
  | n :: rest, g, hmem => by
    cases n with
    | funcDecl name params body loc =>
      have hn : name ∈ g.bytecode.functions.map FuncEntry.name :=
        hmem name (by simp [func_names])
      have hpres := emit_func_names g name params body loc hn
      rw [List.foldl_cons]
      have hrest := emit_funcs_pass_names rest (emit_funcs_pass g (.funcDecl name params body loc))
        (by
          intro x hx
          show x ∈ (emit_func g name params body loc).bytecode.functions.map FuncEntry.name
          rw [hpres]
          have hcons : func_names (TopNode.funcDecl name params body loc :: rest)
              = name :: func_names rest := by simp [func_names]
          exact hmem x (hcons ▸ List.mem_cons_of_mem _ hx))
      rw [hrest]
      exact hpres
    | stmt s =>
      rw [List.foldl_cons]
      have hcons : func_names (TopNode.stmt s :: rest) = func_names rest := by
        simp [func_names]
      exact emit_funcs_pass_names rest _ (fun x hx => hmem x (hcons ▸ hx))

/-- Pass 3b (top-level statement emission) never touches the table. -/
theorem emit_stmts_pass_functions : ∀ (prog : List TopNode) (g : CGState),
    (prog.foldl emit_stmts_pass g).bytecode.functions = g.bytecode.functions
  | [], _ => rfl
  | n :: rest, g => by
    rw [List.foldl_cons, emit_stmts_pass_functions rest _]
    cases n with
    | funcDecl a b c d => rfl
    | stmt s => exact emit_stmt_functions g s

/-- C6 counterexample: a tree with two function declarations that share
the name `f` ends code generation with `function_count = 1`, not `2` —
the count equals the number of *distinct* declared names, not the number
of declarations. -/
theorem duplicate_function_names_cex :
    func_decl_count prog_dup_funcs = 2 ∧
    (codegen_generate prog_dup_funcs).bytecode.functions.length = 1 ∧
    ¬ ((codegen_generate prog_dup_funcs).bytecode.functions.length
        = func_decl_count prog_dup_funcs) := by
  decide

/-- C6 (amended): at the end of code generation `function_count` equals
the number of **distinct** function-declaration names in the source tree
(declarations repeating a name update the existing entry); and
`add_function` registers a new entry (with `local_count = 0`) when the
name is absent, or updates the existing entry of the same name — in the
latter case a call passing the sentinel `0xFFFFFFFF` preserves every
entry's prior `start_ip`. -/
theorem function_table_distinct_names :
    (∀ prog : List TopNode,
      (codegen_generate prog).bytecode.functions.length
        = (func_names prog).dedup.length) ∧
    (∀ (bc : Bytecode) (name : String) (ip pcount : Nat),
      name ∉ bc.functions.map FuncEntry.name →
      bc.add_function name ip pcount
        = (bc.functions.length,
           { bc with functions := bc.functions ++ [⟨name, ip, pcount, 0⟩] })) ∧
    (∀ (bc : Bytecode) (name : String) (pcount : Nat),
      name ∈ bc.functions.map FuncEntry.name →
      (bc.add_function name SENTINEL_IP pcount).2.functions.map
          (fun fe => (fe.name, fe.start_ip))
        = bc.functions.map (fun fe => (fe.name, fe.start_ip))) := by
  refine ⟨?_, add_function_fresh, ?_⟩
  · intro prog
    have h1 := alloc_pass_bytecode prog codegen_create
    have hn2 : (prog.foldl register_funcs_pass
          (prog.foldl alloc_globals_pass codegen_create)).bytecode.functions.map
          FuncEntry.name
        = register_names [] (func_names prog) := by
      rw [register_pass_names prog _, h1]
      rfl
    have hinv : ∀ n ∈ func_names prog,
        n ∈ (prog.foldl register_funcs_pass
          (prog.foldl alloc_globals_pass codegen_create)).bytecode.functions.map
          FuncEntry.name := by
      intro n hn
      rw [hn2]
      exact mem_register_names _ _ _ hn
    have hn3 := emit_funcs_pass_names prog _ hinv
    have hn4 := emit_stmts_pass_functions prog
      (prog.foldl emit_funcs_pass
        (prog.foldl register_funcs_pass (prog.foldl alloc_globals_pass codegen_create)))
    suffices hfin : (codegen_generate prog).bytecode.functions.map FuncEntry.name
        = register_names [] (func_names prog) by
      have hl := congrArg List.length hfin
      rw [List.length_map] at hl
      rw [hl, register_names_length]
    unfold codegen_generate
    dsimp only
    split <;> simp only [cg_emit_functions] <;> rw [hn4, hn3, hn2]
  · intro bc name pcount h
    exact (add_function_present bc name SENTINEL_IP pcount h).2 rfl

/-- Witness for C6 (amended) at a one-entry table: registering a fresh
name appends it; re-registering `f` with the sentinel keeps its
`start_ip` of 7. -/
theorem function_table_distinct_names_witness :
    Bytecode.add_function ⟨[], [], [⟨"f", 7, 1, 0⟩]⟩ "g" 3 2
      = (1, ⟨[], [], [⟨"f", 7, 1, 0⟩, ⟨"g", 3, 2, 0⟩]⟩) ∧
    (Bytecode.add_function ⟨[], [], [⟨"f", 7, 1, 0⟩]⟩ "f" SENTINEL_IP 2).2.functions.map
        (fun fe => (fe.name, fe.start_ip)) = [("f", 7)] := by
  constructor
  · exact function_table_distinct_names.2.1 ⟨[], [], [⟨"f", 7, 1, 0⟩]⟩ "g" 3 2 (by decide)
  · have h := function_table_distinct_names.2.2 ⟨[], [], [⟨"f", 7, 1, 0⟩]⟩ "f" 2 (by decide)
    rw [h]
    decide

/-- C5 counterexample: at `b = false` the claimed round-trip law fails —
`toString(false)` is the nonempty string `"false"`, so `toBool` maps it
to `true`, not back to `false`. -/
theorem tobool_tostring_false_cex :
    builtin_to_bool_val [builtin_to_string_val [.vBool false]] ≠ .vBool false ∧
    builtin_to_bool_val [builtin_to_string_val [.vBool false]] = .vBool true := by
  decide

/-- C5 (amended): for every boolean `b`, `toBool(toString(b))` is `true`:
`toString` renders booleans as the nonempty strings `"true"`/`"false"`,
and `toBool` on a string tests nonemptiness, so the round-trip law
`toBool(toString(b)) == b` holds only for `b = true`. -/
theorem tostring_tobool_roundtrip_true (b : Bool) :
    builtin_to_bool_val [builtin_to_string_val [.vBool b]] = .vBool true := by
  cases b <;> decide

/-- C10: the `sqrt` built-in guards its argument — a strictly negative
promoted argument produces exactly the float `0.0` (the guard prevents
the NaN that `sqrt` of a negative would give, and no error path exists:
the handler always pushes a float); a non-negative argument produces its
square root, which is non-negative and squares back to the argument. -/
theorem sqrt_negative_guard (v : Value) :
    (stdlib_to_double v < 0 → builtin_sqrt_res [v] = 0) ∧
    (0 ≤ stdlib_to_double v →
      builtin_sqrt_res [v] = Real.sqrt ((stdlib_to_double v : ℚ) : ℝ) ∧
      0 ≤ builtin_sqrt_res [v] ∧
      builtin_sqrt_res [v] ^ 2 = ((stdlib_to_double v : ℚ) : ℝ)) := by
  constructor
  · intro h
    simp [builtin_sqrt_res, h]
  · intro h
    have hn : ¬ (stdlib_to_double v < 0) := not_lt.mpr h
    refine ⟨by simp [builtin_sqrt_res, hn], ?_, ?_⟩
    · simp only [builtin_sqrt_res, if_neg hn]
      exact Real.sqrt_nonneg _
    · simp only [builtin_sqrt_res, if_neg hn]
      rw [sq]
      exact Real.mul_self_sqrt (by exact_mod_cast h)

/-- Witness for C10 at the concrete argument `-1`. -/
theorem sqrt_negative_guard_witness :
    stdlib_to_double (.vInt (-1)) < 0 ∧ builtin_sqrt_res [.vInt (-1)] = 0 :=
  ⟨by norm_num [stdlib_to_double],
   (sqrt_negative_guard (.vInt (-1))).1 (by norm_num [stdlib_to_double])⟩

/-- C2 counterexample: a bare `break;` at top level produces no
diagnostic (the claim requires one), and `while (true) { break; }`
generates exactly the same generator state — bytecode included — as
`while (true) { }`: the break emitted no jump and recorded nothing. -/
theorem break_outside_loop_cex :
    (codegen_generate prog_break_toplevel).errs = [] ∧
    (codegen_generate prog_break_toplevel).bytecode.instructions.map
      Instruction.opcode = [.op_halt] ∧
    codegen_generate prog_while_break = codegen_generate prog_while_empty := by
  decide

/-- C2 (amended): `break` and `continue` statements emit no instructions
and record no diagnostics at all — the generator state is returned
unchanged (the pending-jump loop contexts declared in `codegen.h` are
never used; the project README lists `break`/`continue` as parsed but
not implemented). -/
theorem break_continue_emit_nothing (g : CGState) (loc : SourceLocation) :
    emit_stmt g (.brkStmt loc) = g ∧ emit_stmt g (.contStmt loc) = g := by
  constructor <;> rfl

/-- Characterisation of one `divide` step with a zero divisor (integer
`0` or float `0.0` on top of the stack): both operands are consumed, a
located diagnostic is appended, a single Null is pushed, and control
falls through to the next instruction.  `hmax` is the standing invariant
that the stack never exceeds its capacity. -/
theorem divide_zero_step (bd : Nat → Nat → VMState → VMState) (vm : VMState)
    (ins : Instruction) (b a : Value) (rest : List Value)
    (hh : vm.halted = false)
    (hins : vm.bytecode.instructions[vm.pc]? = some ins)
    (hop : ins.opcode = .op_divide)
    (hstk : vm.stack = b :: a :: rest)
    (hzero : b = .vInt 0 ∨ b = .vFloat 0)
    (hmax : vm.stack.length ≤ vm.stackMax) :
    step bd vm = { vm with
      stack := .vNull :: rest,
      errs := vm.errs ++ [.divisionByZero ins.location.line ins.location.column],
      pc := vm.pc + 1 } := by
  have hcap : ¬ (vm.stackMax ≤ rest.length) := by
    rw [hstk] at hmax
    simp only [List.length_cons] at hmax
    omega
  rcases hzero with hz | hz <;> subst hz <;>
    simp [step, hh, hins, hop, VMState.vm_pop, hstk, VMState.vm_push, hcap,
      VMState.advance, Value.int_val_view]

/-- C3 counterexample: a concrete execution of `divide` with integer
divisor `0` (at source location 3:5) prints the located diagnostic but
leaves the halted flag clear and the exit code at `0`, refuting the
claimed halt with exit code 1. -/
theorem divide_by_zero_no_halt_cex :
    state_div_zero.halted = false ∧
    state_div_zero.bytecode.instructions.map Instruction.opcode = [.op_divide] ∧
    (step no_builtins state_div_zero).errs = [.divisionByZero 3 5] ∧
    (step no_builtins state_div_zero).halted = false ∧
    (step no_builtins state_div_zero).exit_code = 0 := by
  decide

/-- C3 (amended): on a zero divisor (integer zero or float 0.0) the VM
prints a diagnostic tagged with the instruction's source location and
pushes a single Null in place of the operands, but does **not** set the
halted flag or the exit code — execution continues at the next
instruction (the halt-with-exit-1 behaviour belongs to the other runtime
errors: unknown opcode, invalid function index, stack overflow and
underflow). -/
theorem divide_by_zero_continues (bd : Nat → Nat → VMState → VMState)
    (vm : VMState) (ins : Instruction) (b a : Value) (rest : List Value)
    (hh : vm.halted = false)
    (hins : vm.bytecode.instructions[vm.pc]? = some ins)
    (hop : ins.opcode = .op_divide)
    (hstk : vm.stack = b :: a :: rest)
    (hzero : b = .vInt 0 ∨ b = .vFloat 0)
    (hmax : vm.stack.length ≤ vm.stackMax) :
    (step bd vm).errs =
      vm.errs ++ [.divisionByZero ins.location.line ins.location.column] ∧
    (step bd vm).stack = .vNull :: rest ∧
    (step bd vm).halted = false ∧
    (step bd vm).exit_code = vm.exit_code ∧
    (step bd vm).pc = vm.pc + 1 := by
  rw [divide_zero_step bd vm ins b a rest hh hins hop hstk hzero hmax]
  exact ⟨rfl, rfl, hh, rfl, rfl⟩

/-- Witness for C3 (amended) at the concrete division `6 / 0`. -/
theorem divide_by_zero_continues_witness :
    (step no_builtins state_div_zero).halted = false ∧
    (step no_builtins state_div_zero).exit_code = 0 ∧
    (step no_builtins state_div_zero).errs = [.divisionByZero 3 5] := by
  have h := divide_by_zero_continues no_builtins state_div_zero
    ⟨.op_divide, 0, 0, ⟨3, 5, "t"⟩⟩ (.vInt 0) (.vInt 6) []
    (by decide) (by decide) rfl (by decide) (Or.inl rfl) (by decide)
  refine ⟨h.2.2.1, ?_, ?_⟩
  · rw [h.2.2.2.1]; decide
  · rw [h.1]; decide

/-- C4: a `divide` with zero divisor reports a runtime error and leaves
exactly one Null in place of the two popped operands: the new stack is
Null on top of the remainder, one shorter than before. -/
theorem divide_by_zero_single_null (bd : Nat → Nat → VMState → VMState)
    (vm : VMState) (ins : Instruction) (b a : Value) (rest : List Value)
    (hh : vm.halted = false)
    (hins : vm.bytecode.instructions[vm.pc]? = some ins)
    (hop : ins.opcode = .op_divide)
    (hstk : vm.stack = b :: a :: rest)
    (hzero : b = .vInt 0 ∨ b = .vFloat 0)
    (hmax : vm.stack.length ≤ vm.stackMax) :
    (step bd vm).stack = .vNull :: rest ∧
    (step bd vm).stack.length + 1 = vm.stack.length ∧
    (step bd vm).errs =
      vm.errs ++ [.divisionByZero ins.location.line ins.location.column] := by
  rw [divide_zero_step bd vm ins b a rest hh hins hop hstk hzero hmax]
  refine ⟨rfl, ?_, rfl⟩
  simp [hstk]

/-- Witness for C4 at the concrete division `6 / 0.0` (the float case). -/
theorem divide_by_zero_single_null_witness :
    (step no_builtins
      { state_div_zero with stack := [.vFloat 0, .vInt 6] }).stack = [.vNull] := by
  have h := divide_by_zero_single_null no_builtins
    { state_div_zero with stack := [.vFloat 0, .vInt 6] }
    ⟨.op_divide, 0, 0, ⟨3, 5, "t"⟩⟩ (.vFloat 0) (.vInt 6) []
    (by decide) (by decide) rfl (by decide) (Or.inr rfl) (by decide)
  exact h.1

/-- C9 counterexample: a `load-local` with no active frame executed on a
full value stack raises the stack-overflow runtime error and sets the
halted flag — the claim's "no runtime error is raised and the halted
flag is not set" does not hold unconditionally. -/
theorem load_var_full_stack_cex :
    state_loadvar_full.halted = false ∧
    state_loadvar_full.frames = [] ∧
    state_loadvar_full.bytecode.instructions.map Instruction.opcode
      = [.op_load_var] ∧
    (step no_builtins state_loadvar_full).halted = true ∧
    (step no_builtins state_loadvar_full).errs = [.stackOverflow] ∧
    (step no_builtins state_loadvar_full).exit_code = 1 := by
  decide

/-- C9 (amended): a `load-local` with no active frame, or with a slot
index at or beyond the frame's local count, pushes Null and continues —
no diagnostic, no halt, no exit-code change — **provided the value stack
is not full**; on a full stack the push itself reports stack overflow
and halts (as for any push). -/
theorem load_var_out_of_range_pushes_null (bd : Nat → Nat → VMState → VMState)
    (vm : VMState) (ins : Instruction)
    (hh : vm.halted = false)
    (hins : vm.bytecode.instructions[vm.pc]? = some ins)
    (hop : ins.opcode = .op_load_var)
    (hcond : vm.frames = [] ∨
      ∃ f fs, vm.frames = f :: fs ∧ f.locals.length ≤ ins.operand1)
    (hmax : vm.stack.length < vm.stackMax) :
    (step bd vm).stack = .vNull :: vm.stack ∧
    (step bd vm).halted = false ∧
    (step bd vm).errs = vm.errs ∧
    (step bd vm).exit_code = vm.exit_code ∧
    (step bd vm).pc = vm.pc + 1 := by
  have hcap : ¬ (vm.stackMax ≤ vm.stack.length) := not_le.mpr hmax
  rcases hcond with hfr | ⟨f, fs, hfr, hidx⟩
  · simp [step, hh, hins, hop, hfr, VMState.vm_push, hcap, VMState.advance]
  · have hnlt : ¬ (ins.operand1 < f.locals.length) := not_lt.mpr hidx
    simp [step, hh, hins, hop, hfr, hnlt, VMState.vm_push, hcap, VMState.advance]

/-- Witness for C9 (amended): the same no-frame `load-local` on a stack
with spare capacity pushes Null and continues. -/
theorem load_var_out_of_range_witness :
    (step no_builtins { state_loadvar_full with stackMax := 16 }).stack
      = [.vNull, .vInt 1, .vInt 2] ∧
    (step no_builtins { state_loadvar_full with stackMax := 16 }).halted = false := by
  have h := load_var_out_of_range_pushes_null no_builtins
    { state_loadvar_full with stackMax := 16 }
    ⟨.op_load_var, 0, 0, tloc⟩
    (by decide) (by decide) rfl (Or.inl (by decide)) (by decide)
  exact ⟨by rw [h.1]; decide, h.2.1⟩

/-- Characterisation of one `return` step with an active frame: the
return value is popped and own-copied from the pre-state (i.e. while the
frame's locals are still intact), the frame is popped, everything above
its `stack_base` is discarded, the owned value is pushed and the program
counter becomes the frame's `return_ip`. -/
theorem return_step_eq (bd : Nat → Nat → VMState → VMState) (vm : VMState)
    (ins : Instruction) (fr : CallFrame) (rest : List CallFrame)
    (top : Value) (stk : List Value)
    (hh : vm.halted = false)
    (hins : vm.bytecode.instructions[vm.pc]? = some ins)
    (hop : ins.opcode = .op_return)
    (hfr : vm.frames = fr :: rest)
    (hstk : vm.stack = top :: stk)
    (hmax : vm.stack.length ≤ vm.stackMax) :
    step bd vm = { vm with
      stack := Value.value_own_copy top :: stk.drop (stk.length - fr.stack_base),
      frames := rest,
      pc := fr.return_ip } := by
  have hcap : ¬ (vm.stackMax ≤ stk.length - (stk.length - fr.stack_base)) := by
    rw [hstk] at hmax
    simp only [List.length_cons] at hmax
    omega
  simp [step, hh, hins, hop, VMState.vm_pop, hstk, hfr, VMState.vm_push, hcap]

/-- C1 counterexample: in the compiled program
`func Int g(a : Int) { return 5; } g(41);` the frame pushed for `g`
records `stack_base = 1` (the depth *before* the argument is popped),
and the stack depth immediately after `g`'s return executes is `1`, not
`stack_base + 1 = 2` — the claimed depth equation fails whenever the
call passed arguments. -/
theorem return_depth_cex :
    state_before_return.halted = false ∧
    (state_before_return.bytecode.instructions[state_before_return.pc]?.map
      Instruction.opcode) = some .op_return ∧
    state_before_return.frames.map CallFrame.stack_base = [1] ∧
    (step no_builtins state_before_return).stack.length = 1 ∧
    ¬ ((step no_builtins state_before_return).stack.length = 1 + 1) := by
  decide

/-- C1 (amended): a `return` with at least one active frame pops the
return value and own-copies it from the pre-state — before any local of
the popped frame is freed — discards every stack value above the popped
frame's `stack_base`, pushes the owned copy, sets the program counter to
the frame's `return_ip`, and raises no error.  The resulting stack depth
is `min (d − 1) stack_base + 1`, where `d` is the depth when the return
executes; because `stack_base` is recorded **before** the call's
arguments are popped, this equals `stack_base + 1` only when values
remain at or above `stack_base` (for a balanced body called with `argc`
arguments it is `stack_base − argc + 1`). -/
theorem return_own_copy_discipline (bd : Nat → Nat → VMState → VMState)
    (vm : VMState) (ins : Instruction) (fr : CallFrame) (rest : List CallFrame)
    (top : Value) (stk : List Value)
    (hh : vm.halted = false)
    (hins : vm.bytecode.instructions[vm.pc]? = some ins)
    (hop : ins.opcode = .op_return)
    (hfr : vm.frames = fr :: rest)
    (hstk : vm.stack = top :: stk)
    (hmax : vm.stack.length ≤ vm.stackMax) :
    (step bd vm).stack =
      Value.value_own_copy top :: stk.drop (stk.length - fr.stack_base) ∧
    (step bd vm).pc = fr.return_ip ∧
    (step bd vm).frames = rest ∧
    (step bd vm).halted = false ∧
    (step bd vm).errs = vm.errs ∧
    (step bd vm).stack.length = min stk.length fr.stack_base + 1 := by
  rw [return_step_eq bd vm ins fr rest top stk hh hins hop hfr hstk hmax]
  refine ⟨rfl, rfl, rfl, hh, rfl, ?_⟩
  simp only [List.length_cons, List.length_drop]
  omega

/-- Witness for C1 (amended) at the `g(41)` execution: the return pushes
the owned `5`, jumps to the caller's `return_ip = 5`, and leaves depth
`min 0 1 + 1 = 1`. -/
theorem return_own_copy_discipline_witness :
    (step no_builtins state_before_return).pc = 5 ∧
    (step no_builtins state_before_return).stack = [.vInt 5] ∧
    (step no_builtins state_before_return).stack.length = 1 := by
  have h := return_own_copy_discipline no_builtins state_before_return
    ⟨.op_return, 0, 0, tloc⟩
    ⟨5, 1, .vInt 41 :: List.replicate 8 .vNull⟩ [] (.vInt 5) []
    (by decide) (by decide) rfl (by decide) (by decide) (by decide)
  refine ⟨h.2.1, ?_, ?_⟩
  · rw [h.1]; decide
  · rw [h.2.2.2.2.2]; decide

/-- C7: the program `Let x : Int = 7;` alone exits with code 0, and with
a following top-level `return x;` it exits with code 7 (for any builtin
table, any frame bound and any positive stack bound); and at a `halt`
instruction the VM halts with the exit code taken from the top of stack
exactly when that value is an Int, Bool or Float (Int and Float through
the C `(int)` cast, Bool as 1/0), and left unchanged otherwise. -/
theorem top_level_let_return_exit_codes :
    (∀ (bd : Nat → Nat → VMState → VMState) (smax fmax : Nat), 1 ≤ smax →
      interpret bd prog_let7 smax fmax 20 = 0) ∧
    (∀ (bd : Nat → Nat → VMState → VMState) (smax fmax : Nat), 1 ≤ smax →
      interpret bd prog_let7_return smax fmax 20 = 7) ∧
    (∀ (bd : Nat → Nat → VMState → VMState) (vm : VMState) (ins : Instruction),
      vm.halted = false →
      vm.bytecode.instructions[vm.pc]? = some ins →
      ins.opcode = .op_halt →
      (step bd vm).halted = true ∧
      (step bd vm).exit_code =
        (match vm.stack.head? with
         | some (.vInt n) => wrap32 n
         | some (.vBool b) => if b then 1 else 0
         | some (.vFloat f) => wrap32 (rat_trunc f)
         | _ => vm.exit_code)) := by
  refine ⟨?_, ?_, ?_⟩
  · intro bd smax fmax hsm
    have h1 : ¬ (smax ≤ 0) := by omega
    have hbc : (codegen_generate prog_let7).bytecode =
        ⟨[⟨.op_push_const, 0, 0, tloc⟩, ⟨.op_store_global, 0, 0, tloc⟩,
          ⟨.op_halt, 0, 0, ⟨1, 1, "end"⟩⟩], [.vInt 7], []⟩ := by decide
    simp [interpret, hbc, vm_run, step, VMState.vm_create, VMState.vm_push,
      VMState.vm_pop, VMState.ensure_global, VMState.advance,
      Value.value_own_copy, h1]
  · intro bd smax fmax hsm
    have h1 : ¬ (smax ≤ 0) := by omega
    have hbc : (codegen_generate prog_let7_return).bytecode =
        ⟨[⟨.op_push_const, 0, 0, tloc⟩, ⟨.op_store_global, 0, 0, tloc⟩,
          ⟨.op_load_global, 0, 0, tloc⟩, ⟨.op_return, 0, 0, tloc⟩,
          ⟨.op_halt, 0, 0, ⟨1, 1, "end"⟩⟩], [.vInt 7], []⟩ := by decide
    simp [interpret, hbc, vm_run, step, VMState.vm_create, VMState.vm_push,
      VMState.vm_pop, VMState.ensure_global, VMState.advance,
      Value.value_own_copy, wrap32, h1]
  · intro bd vm ins hh hins hop
    rcases hd : vm.stack.head? with _ | v
    · simp [step, hh, hins, hop, hd, VMState.advance]
    · cases v <;> simp [step, hh, hins, hop, hd, VMState.advance]

/-- Witness for C7 at the concrete bounds 1024/256 and a trivial builtin
table: exit code 0 for the bare declaration, 7 with the return. -/
theorem top_level_let_return_exit_codes_witness :
    interpret no_builtins prog_let7 1024 256 20 = 0 ∧
    interpret no_builtins prog_let7_return 1024 256 20 = 7 :=
  ⟨top_level_let_return_exit_codes.1 no_builtins 1024 256 (by norm_num),
   top_level_let_return_exit_codes.2.1 no_builtins 1024 256 (by norm_num)⟩

end OCL
